import Mathlib

/-!
Verification of the menu/service back-office application (src/main.py) against its
specification. The development shallowly embeds the Python source:

* `coerce_price` (src/main.py lines 37-45) goes through Python `float`, i.e. IEEE-754
  binary64 arithmetic. Binary64 values are embedded exactly: a finite double is a
  rational number, and every rounding step (decimal literal to double, double
  multiplication, `round()` to int) is round-to-nearest, ties-to-even, modelled by
  exact rational computation.
* Rational numbers that must be computed by the kernel are represented by raw
  integer fractions (`PRat`, no gcd normalisation), with an abstraction map
  `PRat.val : PRat -> Q` used in proofs.
* The in-memory store (MENU_DB, SERVICE_DB, the two id counters) is a record `St`,
  and every handler is a function `St -> ... -> HResp x St`.
-/

set_option autoImplicit false
set_option maxRecDepth 8000

/-! ### Raw rationals: executable exact fractions -/

/-- A raw fraction `num / den`. Operations never normalise, so kernel evaluation
only uses integer arithmetic. The invariant `0 < den` is carried in proofs. -/
structure PRat where
  num : Int
  den : Int
  deriving DecidableEq, Repr

/-- `2 ^ n` as an integer, via kernel-accelerated `Nat.pow`. -/
def ipow2 (n : Nat) : Int := Int.ofNat (2 ^ n)

/-- `10 ^ n` as an integer, via kernel-accelerated `Nat.pow`. -/
def ipow10 (n : Nat) : Int := Int.ofNat (10 ^ n)

namespace PRat

/-- The rational value of a raw fraction. -/
def val (q : PRat) : ℚ := (q.num : ℚ) / (q.den : ℚ)

/-- Multiply by `2 ^ e` (`e : Int`), keeping the fraction raw. -/
def mul2z (q : PRat) (e : Int) : PRat :=
  if 0 ≤ e then ⟨q.num * ipow2 e.toNat, q.den⟩ else ⟨q.num, q.den * ipow2 (-e).toNat⟩

/-- Multiply by `10 ^ e` (`e : Int`), keeping the fraction raw. -/
def mul10z (q : PRat) (e : Int) : PRat :=
  if 0 ≤ e then ⟨q.num * ipow10 e.toNat, q.den⟩ else ⟨q.num, q.den * ipow10 (-e).toNat⟩

/-- Boolean `q1 <= q2` by cross multiplication (valid when both `den > 0`). -/
def leB (q1 q2 : PRat) : Bool := q1.num * q2.den ≤ q2.num * q1.den

/-- Floor of the value (valid when `0 < den`): Euclidean division rounds toward
negative infinity for a positive divisor. -/
def floor (q : PRat) : Int := q.num / q.den

/-- Round to nearest integer, ties to even: the rounding used both by Python's
`round()` on a float and by float formatting. -/
def rne (q : PRat) : Int :=
  let f := q.floor
  let t := 2 * (q.num - f * q.den)
  if t < q.den then f
  else if q.den < t then f + 1
  else if f % 2 = 0 then f else f + 1

/-- Round to nearest integer, ties away from zero (the other rounding mode named
by the specification; only used to state claims). -/
def rha (q : PRat) : Int :=
  let f := q.floor
  let t := 2 * (q.num - f * q.den)
  if t < q.den then f else f + 1

end PRat

/-- Fuel-driven binary logarithm: `log2F fuel n` is the floor of `log2 n`
whenever `n ≤ fuel` and `0 < n`. Structural recursion keeps it kernel-reducible. -/
def log2F : Nat → Nat → Nat
  | 0, _ => 0
  | fuel + 1, n => if n ≤ 1 then 0 else log2F fuel (n / 2) + 1

/-- Floor of the binary logarithm of a natural number. -/
def nlog2 (n : Nat) : Nat := log2F n n

/-- `2 ^ e` as a rational, for exponents of either sign (used in statements and
proofs only). -/
def qpow2 (e : Int) : ℚ := (2 : ℚ) ^ e

/-- Floor of the binary logarithm of a positive fraction. The candidate from the
integer logarithms of numerator and denominator is off by at most one, and the
boolean comparison picks the right value. -/
def floorLog2P (q : PRat) : Int :=
  let g : Int := (nlog2 q.num.toNat : Int) - (nlog2 q.den.toNat : Int)
  if PRat.leB (PRat.mul2z ⟨1, 1⟩ g) q then g else g - 1

/-! ### Binary64 doubles, exactly -/

/-- A Python float: a finite binary64 value (held as an exact fraction), a signed
infinity, or NaN. -/
inductive PyFloat where
  | finite : PRat → PyFloat
  | inf : Bool → PyFloat
  | nan : PyFloat
  deriving DecidableEq, Repr

/-- Round a positive fraction to the nearest binary64 value (ties to even),
overflowing to infinity at or beyond `2^1024 - 2^970`. The grid spacing is
`2^(e-52)` for normal values and `2^-1074` below the normal range. -/
def roundPosB64 (q : PRat) : PyFloat :=
  let s : Int := max (floorLog2P q - 52) (-1074)
  let m := PRat.rne (q.mul2z (-s))
  if ipow2 (1024 - s).toNat ≤ m then .inf false
  else .finite (PRat.mul2z ⟨m, 1⟩ s)

/-- Round any fraction to the nearest binary64 value (ties to even). -/
def roundB64 (q : PRat) : PyFloat :=
  if q.num = 0 then .finite ⟨0, 1⟩
  else if 0 < q.num then roundPosB64 q
  else
    match roundPosB64 ⟨-q.num, q.den⟩ with
    | .inf _ => .inf true
    | .finite r => .finite ⟨-r.num, r.den⟩
    | .nan => .nan

/-! ### Parsing Python float literals

Model of `float(txt)` for ASCII strings (src/main.py line 41). The accepted
grammar is `[+|-] (inf | infinity | nan | digits [. digits] [(e|E) [+|-] digits])`,
case-insensitive for the named literals, with underscores allowed only between
digits. The parser produces the exact decimal value; `litToFloat` then rounds it
to binary64 exactly as a correctly rounded `strtod` does (overflow gives an
infinity, tiny values flush toward zero). Unicode digits, which CPython also
accepts, are outside the model. -/

/-- The exact value of a Python float literal before rounding. -/
inductive PyLit where
  | rat : PRat → PyLit
  | infLit : Bool → PyLit
  | nanLit : PyLit
  deriving DecidableEq, Repr

/-- Numeric value of an ASCII digit. -/
def digitVal (c : Char) : Nat := c.toNat - 48

/-- Read a maximal run of digits with optional single underscores between digits,
accumulating value and digit count. Underscores must be surrounded by digits. -/
def readRun : List Char → Nat → Nat → Option (Nat × Nat × List Char)
  | [], acc, cnt => some (acc, cnt, [])
  | c :: rest, acc, cnt =>
    if c.isDigit then readRun rest (10 * acc + digitVal c) (cnt + 1)
    else if c = '_' then
      match rest with
      | d :: rest2 => if d.isDigit then readRun rest2 (10 * acc + digitVal d) (cnt + 1) else none
      | [] => none
    else some (acc, cnt, c :: rest)

/-- Read a digit run that must start with a digit; `none` otherwise. -/
def readDigits (cs : List Char) : Option (Nat × Nat × List Char) :=
  match cs with
  | c :: _ => if c.isDigit then readRun cs 0 0 else none
  | [] => none

/-- The exact fraction `(+|-) m * 10 ^ scale`. -/
def decValue (sign : Bool) (m : Nat) (scale : Int) : PRat :=
  PRat.mul10z ⟨if sign then -(m : Int) else (m : Int), 1⟩ scale

/-- Read the exponent part after the `e`: an optional sign and a digit run that
must consume the rest of the input. -/
def readExpPart (cs : List Char) : Option Int :=
  match cs with
  | '+' :: rest => (readDigits rest).bind fun (v, _, r) => if r = [] then some (v : Int) else none
  | '-' :: rest => (readDigits rest).bind fun (v, _, r) => if r = [] then some (-(v : Int)) else none
  | rest => (readDigits rest).bind fun (v, _, r) => if r = [] then some (v : Int) else none

/-- Continue a decimal literal after the dot: optional fractional digits and an
optional exponent; `ic` integer digits were already read. -/
def parseFrac (sign : Bool) (iv ic : Nat) (r2 : List Char) : Option PRat :=
  let t := match readDigits r2 with
    | some x => x
    | none => (0, 0, r2)
  if ic + t.2.1 = 0 then none
  else
    match t.2.2 with
    | [] => some (decValue sign (iv * 10 ^ t.2.1 + t.1) (-(t.2.1 : Int)))
    | c :: r4 =>
      if c = 'e' ∨ c = 'E' then
        (readExpPart r4).map fun e => decValue sign (iv * 10 ^ t.2.1 + t.1) (e - t.2.1)
      else none

/-- Continue a decimal literal after its integer digits: optional fraction and
optional exponent; at least one mantissa digit is required overall. -/
def parseTail (sign : Bool) (iv ic : Nat) (rest : List Char) : Option PRat :=
  match rest with
  | [] => if ic = 0 then none else some (decValue sign iv 0)
  | c :: r2 =>
    if c = '.' then parseFrac sign iv ic r2
    else if (c = 'e' ∨ c = 'E') ∧ 1 ≤ ic then
      (readExpPart r2).map fun e => decValue sign iv e
    else none

/-- Parse an unsigned decimal literal. -/
def parseDec (sign : Bool) (cs : List Char) : Option PRat :=
  match readDigits cs with
  | some (iv, ic, rest) => parseTail sign iv ic rest
  | none => parseTail sign 0 0 cs

/-- Parse the part after the optional sign: named literals or a decimal. -/
def parseAfterSign (sign : Bool) (cs : List Char) : Option PyLit :=
  let low := cs.map Char.toLower
  if low = ['i', 'n', 'f'] ∨ low = ['i', 'n', 'f', 'i', 'n', 'i', 't', 'y'] then some (.infLit sign)
  else if low = ['n', 'a', 'n'] then some .nanLit
  else (parseDec sign cs).map .rat

/-- Parse a Python float literal to its exact value. -/
def parsePyLit (cs : List Char) : Option PyLit :=
  match cs with
  | [] => parseAfterSign false []
  | c :: rest =>
    if c = '+' then parseAfterSign false rest
    else if c = '-' then parseAfterSign true rest
    else parseAfterSign false (c :: rest)

/-- Round a parsed literal to an actual Python float. -/
def litToFloat : PyLit → PyFloat
  | .rat q => roundB64 q
  | .infLit s => .inf s
  | .nanLit => .nan

/-- `float(s)` on ASCII character data: `none` models a `ValueError`. -/
def pyFloatOfChars (cs : List Char) : Option PyFloat :=
  (parsePyLit cs).map litToFloat

/-! ### The price parser (`coerce_price`, src/main.py lines 37-45) -/

/-- The Python exceptions `coerce_price` can raise: `ValueError` (empty input,
unparseable text, negative value, NaN) and `OverflowError` (infinite value at
`round`). The handlers catch only `ValueError`. -/
inductive PyErr where
  | valueError (msg : String)
  | overflowError (msg : String)
  deriving DecidableEq, Repr

/-- ASCII whitespace stripped by `str.strip()`. -/
def isPySpace (c : Char) : Bool :=
  c = ' ' ∨ c = '\t' ∨ c = '\n' ∨ c = '\r' ∨ c = '\x0b' ∨ c = '\x0c'

/-- `str.strip()` for ASCII whitespace. -/
def pyStrip (cs : List Char) : List Char :=
  ((cs.dropWhile isPySpace).reverse.dropWhile isPySpace).reverse

/-- `.replace(",", "")`. -/
def dropCommas (cs : List Char) : List Char := cs.filter (fun c => c ≠ ',')

/-- The cleaned text `raw.strip().replace(",", "")` that `coerce_price` parses. -/
def cleanPrice (raw : String) : List Char := dropCommas (pyStrip raw.data)

/-- Sign test `value < 0` on a Python float (`NaN < 0` is false). -/
def floatNegB : PyFloat → Bool
  | .finite q => decide (q.num < 0)
  | .inf s => s
  | .nan => false

/-- Float multiplication `value * 100`: the exact product rounded to binary64. -/
def floatMul100 : PyFloat → PyFloat
  | .finite q => roundB64 ⟨q.num * 100, q.den⟩
  | .inf s => .inf s
  | .nan => .nan

/-- Python `round()` to an integer: ties to even on finite values, exceptions on
infinities and NaN. -/
def pyRoundInt : PyFloat → Except PyErr Int
  | .finite q => .ok (PRat.rne q)
  | .inf _ => .error (.overflowError "cannot convert float infinity to integer")
  | .nan => .error (.valueError "cannot convert float NaN to integer")

/-- `coerce_price` (src/main.py lines 37-45): strip and de-comma the raw string,
reject empty text, parse as a Python float, reject negative values, multiply by
100 in float arithmetic and round to the nearest integer. -/
def coerce_price (raw : String) : Except PyErr Int :=
  let txt := cleanPrice raw
  if txt = [] then .error (.valueError "Price required")
  else
    match pyFloatOfChars txt with
    | none => .error (.valueError ("could not convert string to float: '" ++ String.mk txt ++ "'"))
    | some v =>
      if floatNegB v then .error (.valueError "Price cannot be negative")
      else pyRoundInt (floatMul100 v)

/-! ### Currency formatting (`price_fmt`, src/main.py lines 47-48) -/

/-- Character for a decimal digit. -/
def digitChar (d : Nat) : Char := Char.ofNat (48 + d)

/-- Decimal digits of a natural number, most significant first (fuel-driven to
stay kernel-reducible). -/
def natDigitsF : Nat → Nat → List Char
  | 0, _ => []
  | fuel + 1, n => if n = 0 then [] else natDigitsF fuel (n / 10) ++ [digitChar (n % 10)]

/-- Decimal digits of a natural number, most significant first. -/
def natDigits (n : Nat) : List Char := if n = 0 then ['0'] else natDigitsF (n + 1) n

/-- Insert a comma after every three characters of a reversed digit list (the
thousands grouping of the `,` format flag). -/
def group3 : List Char → List Char
  | a :: b :: c :: d :: rest => a :: b :: c :: ',' :: group3 (d :: rest)
  | l => l

/-- Two zero-padded digits (for the fractional part; argument below 100). -/
def twoDigitChars (n : Nat) : List Char := [digitChar (n / 10), digitChar (n % 10)]

/-- Render `c / 100` with a sign, thousands separators and exactly two decimals:
the digit pipeline shared by the float formatter and the exact formatter. -/
def renderGrouped2 (c : Int) (neg : Bool) : String :=
  let a := c.natAbs
  String.mk ((if neg then ['-'] else []) ++
    (group3 (natDigits (a / 100)).reverse).reverse ++ '.' :: twoDigitChars (a % 100))

/-- Python `format(x, ",.2f")` on a finite double `x`: correctly rounded at two
decimals with ties to even, minus sign taken from the value's sign. (The
negative-zero display of `-0.00` arises exactly when the value is negative and
rounds to zero, which this reproduces; an actual IEEE `-0.0` input cannot occur
in `price_fmt` since `cents / 100` only produces `-0.0` from `cents = 0` with a
negative zero numerator, impossible for an int.) -/
def fmtComma2 (q : PRat) : String :=
  renderGrouped2 (PRat.rne ⟨q.num * 100, q.den⟩) (decide (q.num < 0))

/-- `price_fmt` (src/main.py lines 47-48): `f"₱{cents/100:,.2f}"`. The division
`cents / 100` is Python float (binary64) division: the exact quotient correctly
rounded, raising `OverflowError` when it exceeds the float range. -/
def price_fmt (cents : Int) : Except PyErr String :=
  match roundB64 ⟨cents, 100⟩ with
  | .finite q => .ok ("₱" ++ fmtComma2 q)
  | .inf _ => .error (.overflowError "integer division result too large for a float")
  | .nan => .error (.valueError "unreachable")

/-- Specification-side renderer: the currency string whose digits are derived
exactly from the minor-unit integer `cents` (no float division). -/
def exactPriceStr (cents : Int) : String :=
  "₱" ++ renderGrouped2 cents (decide (cents < 0))

/-! ### Image encoding (`encode_upload_to_data_url`, src/main.py lines 25-35) -/

/-- Standard base64 alphabet. -/
def b64Alphabet : List Char :=
  [ 'A', 'B', 'C', 'D', 'E', 'F', 'G', 'H', 'I', 'J', 'K', 'L', 'M',
    'N', 'O', 'P', 'Q', 'R', 'S', 'T', 'U', 'V', 'W', 'X', 'Y', 'Z',
    'a', 'b', 'c', 'd', 'e', 'f', 'g', 'h', 'i', 'j', 'k', 'l', 'm',
    'n', 'o', 'p', 'q', 'r', 's', 't', 'u', 'v', 'w', 'x', 'y', 'z',
    '0', '1', '2', '3', '4', '5', '6', '7', '8', '9', '+', '/' ]

/-- Character for a 6-bit group. -/
def b64Char (n : Nat) : Char := b64Alphabet.getD n 'A'

/-- `base64.b64encode` on a byte list (bytes are naturals below 256). -/
def base64Chars : List Nat → List Char
  | [] => []
  | [a] => [b64Char (a / 4), b64Char (a % 4 * 16), '=', '=']
  | [a, b] => [b64Char (a / 4), b64Char (a % 4 * 16 + b / 16), b64Char (b % 16 * 4), '=']
  | a :: b :: c :: rest =>
    b64Char (a / 4) :: b64Char (a % 4 * 16 + b / 16) ::
      b64Char (b % 16 * 4 + c / 64) :: b64Char (c % 64) :: base64Chars rest

/-- Modelled from the Python stdlib: the fragment of the `mimetypes` extension
table relevant to image uploads (lower-case extension, without the dot). -/
def mimeTable (ext : List Char) : Option String :=
  if ext = ['p', 'n', 'g'] then some "image/png"
  else if ext = ['j', 'p', 'g'] then some "image/jpeg"
  else if ext = ['j', 'p', 'e', 'g'] then some "image/jpeg"
  else if ext = ['g', 'i', 'f'] then some "image/gif"
  else if ext = ['w', 'e', 'b', 'p'] then some "image/webp"
  else if ext = ['s', 'v', 'g'] then some "image/svg+xml"
  else if ext = ['b', 'm', 'p'] then some "image/bmp"
  else if ext = ['t', 'x', 't'] then some "text/plain"
  else none

/-- Modelled from the Python stdlib: `os.path.splitext`-style extension of a
filename, lower-cased, `none` when there is no extension (a name whose only
dots are leading has none). -/
def extOf (name : List Char) : Option (List Char) :=
  let revName := name.reverse
  if revName.contains '.' then
    let ext := (revName.takeWhile (fun c => c ≠ '.')).reverse.map Char.toLower
    let pre := (revName.dropWhile (fun c => c ≠ '.')).drop 1
    if pre.any (fun c => c ≠ '.') then some ext else none
  else none

/-- Modelled from the Python stdlib: `mimetypes.guess_type(filename)[0]`. -/
def guess_type (filename : String) : Option String :=
  (extOf filename.data).bind mimeTable

/-- Keep an optional string only when it is truthy in Python (present and
non-empty). -/
def truthy : Option String → Option String
  | some s => if s = "" then none else some s
  | none => none

/-- An uploaded file as the handlers see it: `filename` and `content_type` as
reported by the client (either may be missing or empty), `content` the full byte
stream that `file.file.read()` returns. -/
structure UploadFile where
  filename : Option String
  content_type : Option String
  content : List Nat
  deriving DecidableEq, Repr

/-- `encode_upload_to_data_url` (src/main.py lines 25-35): `None` without a
usable upload (missing file, falsy filename, empty content); otherwise a
`data:<mime>;base64,<payload>` URL, preferring the declared content type, then
the type guessed from the filename, then `application/octet-stream`. -/
def encode_upload_to_data_url (file : Option UploadFile) : Option String :=
  match file with
  | none => none
  | some f =>
    if (truthy f.filename).isNone then none
    else if f.content = [] then none
    else
      let mime := match truthy f.content_type with
        | some c => c
        | none => (guess_type (f.filename.getD "")).getD "application/octet-stream"
      some ("data:" ++ mime ++ ";base64," ++ String.mk (base64Chars f.content))

/-! ### The record store and the request handlers (src/main.py lines 20-23 and
145-237) -/

/-- A menu record (`MENU_DB` entries). -/
structure MenuItem where
  id : Nat
  name : String
  price_cents : Int
  image : String
  description : String
  deriving DecidableEq, Repr

/-- A service record (`SERVICE_DB` entries). -/
structure ServiceItem where
  id : Nat
  name : String
  price_cents : Int
  image : String
  deriving DecidableEq, Repr

/-- The whole in-memory store: both collections and both `itertools.count(1)`
counters, where the counter field holds the next value `next()` will yield. -/
structure St where
  menu : List MenuItem
  services : List ServiceItem
  menu_id_seq : Nat
  service_id_seq : Nat
  deriving DecidableEq, Repr

/-- The store at process start: empty collections, both counters at 1. -/
def initSt : St := ⟨[], [], 1, 1⟩

/-- A handler outcome: a redirect response (status and URL), an
`HTTPException(404)`, or an exception class the handler does not catch escaping
to the framework. -/
inductive HResp where
  | redirect (status : Nat) (url : String)
  | notFound (detail : String)
  | uncaught
  deriving DecidableEq, Repr

/-- The form fields of `POST /menu` and `POST /menu/{id}/edit`. -/
structure MenuForm where
  name : String
  price : String
  description : String
  image_file : Option UploadFile
  image_url : Option String
  deriving DecidableEq, Repr

/-- The form fields of `POST /services`. -/
structure ServiceForm where
  name : String
  price : String
  image_file : Option UploadFile
  deriving DecidableEq, Repr

/-- `str.strip()` on a string value. -/
def pyStripStr (s : String) : String := String.mk (pyStrip s.data)

/-- Decimal rendering of a natural (for URLs like `/menu/{id}/edit`). -/
def natToStr (n : Nat) : String := String.mk (natDigits n)

/-- Replace the first list element satisfying `p` by its image under `g` (Python
mutates the dict that `next(...)` found). -/
def updateFirst {α : Type} (p : α → Bool) (g : α → α) : List α → List α
  | [] => []
  | x :: xs => if p x then g x :: xs else x :: updateFirst p g xs

/-- Remove the first list element satisfying `p`; `none` when no element
matches (`del MENU_DB[idx]` after an index search). -/
def eraseFirst {α : Type} (p : α → Bool) : List α → Option (List α)
  | [] => none
  | x :: xs => if p x then some xs else (eraseFirst p xs).map (x :: ·)

/-- `add_menu` (src/main.py lines 145-169): validate the price (a `ValueError`
becomes an error redirect; an `OverflowError` escapes), encode the upload,
fall back to `image_url or ""`, append a record under the next menu id. -/
def add_menu (st : St) (f : MenuForm) : HResp × St :=
  match coerce_price f.price with
  | .error (.valueError msg) => (.redirect 303 ("/manage?err=" ++ msg), st)
  | .error (.overflowError _) => (.uncaught, st)
  | .ok price_cents =>
    let data_url := if f.image_file.isSome then encode_upload_to_data_url f.image_file else none
    let image := match truthy data_url with
      | some d => d
      | none => f.image_url.getD ""
    let item : MenuItem :=
      ⟨st.menu_id_seq, pyStripStr f.name, price_cents, image, pyStripStr f.description⟩
    (.redirect 303 "/manage?msg=Menu+added",
      { st with menu := st.menu ++ [item], menu_id_seq := st.menu_id_seq + 1 })

/-- The in-place field update `edit_menu` performs on the found record
(src/main.py lines 196-204): name, price and description are overwritten; the
image only when the upload encodes to a data URL, or failing that when a
non-empty `image_url` was posted. -/
def applyEditTo (f : MenuForm) (pc : Int) (m : MenuItem) : MenuItem :=
  let data_url := if f.image_file.isSome then encode_upload_to_data_url f.image_file else none
  { m with
    name := pyStripStr f.name
    price_cents := pc
    description := pyStripStr f.description
    image := match truthy data_url with
      | some d => d
      | none => match truthy f.image_url with
        | some u => u
        | none => m.image }

/-- `edit_menu` (src/main.py lines 178-206): 404 when the id is absent, then
price validation (error redirect back to the edit form), then the in-place
update of the first matching record. -/
def edit_menu (st : St) (item_id : Nat) (f : MenuForm) : HResp × St :=
  match st.menu.find? (fun m => m.id == item_id) with
  | none => (.notFound "Menu item not found", st)
  | some _ =>
    match coerce_price f.price with
    | .error (.valueError msg) =>
      (.redirect 303 ("/menu/" ++ natToStr item_id ++ "/edit?err=" ++ msg), st)
    | .error (.overflowError _) => (.uncaught, st)
    | .ok pc =>
      (.redirect 303 "/manage?msg=Menu+updated",
        { st with menu := updateFirst (fun m => m.id == item_id) (applyEditTo f pc) st.menu })

/-- `delete_menu` (src/main.py lines 208-214): remove the first record with the
given id, 404 when none matches. -/
def delete_menu (st : St) (item_id : Nat) : HResp × St :=
  match eraseFirst (fun m => m.id == item_id) st.menu with
  | none => (.notFound "Menu item not found", st)
  | some menu2 => (.redirect 303 "/manage?msg=Menu+deleted", { st with menu := menu2 })

/-- `add_service` (src/main.py lines 216-237): like `add_menu` but on the
service collection, with `data_url or ""` as the image. -/
def add_service (st : St) (f : ServiceForm) : HResp × St :=
  match coerce_price f.price with
  | .error (.valueError msg) => (.redirect 303 ("/manage?err=" ++ msg ++ "#services"), st)
  | .error (.overflowError _) => (.uncaught, st)
  | .ok pc =>
    let data_url := if f.image_file.isSome then encode_upload_to_data_url f.image_file else none
    let item : ServiceItem :=
      ⟨st.service_id_seq, pyStripStr f.name, pc, (truthy data_url).getD ""⟩
    (.redirect 303 "/manage?msg=Service+added#services",
      { st with services := st.services ++ [item], service_id_seq := st.service_id_seq + 1 })

/-! ### Startup seeding (`seed_data`, src/main.py lines 50-112) -/

/-- The 1x1 placeholder PNG for "#FDE68A" (src/main.py line 55). -/
def pxYellow : String :=
  "data:image/png;base64,iVBORw0KGgoAAAANSUhEUgAAAAEAAAABCAQAAAC1HAwCAAAAC0lEQVR42mP8/x8AAuMBgKkq2AkAAAAASUVORK5CYII="

/-- The 1x1 placeholder PNG for "#BFDBFE" (src/main.py line 56). -/
def pxBlue : String :=
  "data:image/png;base64,iVBORw0KGgoAAAANSUhEUgAAAAEAAAABCAQAAAC1HAwCAAAAC0lEQVR42mP8zw8AAl8B1q1qj1AAAAAASUVORK5CYII="

/-- The 1x1 placeholder PNG for "#C7F9CC" (src/main.py line 57). -/
def pxGreen : String :=
  "data:image/png;base64,iVBORw0KGgoAAAANSUhEUgAAAAEAAAABCAQAAAC1HAwCAAAAC0lEQVR42mP8zQ8AAiEB0oXvCwAAAABJRU5ErkJggg=="

/-- The 1x1 placeholder PNG for "#FBCFE8" (src/main.py line 58). -/
def pxPink : String :=
  "data:image/png;base64,iVBORw0KGgoAAAANSUhEUgAAAAEAAAABCAQAAAC1HAwCAAAAC0lEQVR42mP8Pw8AAmIBq1o7SgAAAABJRU5ErkJggg=="

/-- The integer a successful `coerce_price` call returns (the seed literals all
succeed, proved in the seeding theorem; Python would propagate the exception,
so the fallback value is never used). -/
def okPrice (s : String) : Int :=
  match coerce_price s with
  | .ok n => n
  | .error _ => 0

/-- `seed_data` (src/main.py lines 50-112): a no-op unless both collections are
empty; otherwise four menu items and two services at the next counter values. -/
def seed_data (st : St) : St :=
  if st.menu ≠ [] ∨ st.services ≠ [] then st
  else
    { st with
      menu := st.menu ++
        [ ⟨st.menu_id_seq, "Classic Burger", okPrice "199", pxYellow,
            "Grilled beef patty, cheddar, lettuce, tomato, house sauce."⟩,
          ⟨st.menu_id_seq + 1, "Chicken Alfredo", okPrice "249.50", pxBlue,
            "Creamy pasta with roasted chicken and parmesan."⟩,
          ⟨st.menu_id_seq + 2, "Veggie Bowl", okPrice "179", pxGreen,
            "Seasonal veggies, quinoa, tahini drizzle."⟩,
          ⟨st.menu_id_seq + 3, "Iced Latte", okPrice "99", pxPink,
            "Arabica espresso over ice and milk."⟩ ],
      services := st.services ++
        [ ⟨st.service_id_seq, "Event Place: Garden Pavilion", okPrice "5000", pxBlue⟩,
          ⟨st.service_id_seq + 1, "Event Place: Rooftop Lounge", okPrice "8000", pxGreen⟩ ],
      menu_id_seq := st.menu_id_seq + 4,
      service_id_seq := st.service_id_seq + 2 }

/-! ### Traces of operations (for the identifier-sequence claims) -/

/-- One client-visible mutating operation. -/
inductive Op where
  | menuAdd (f : MenuForm)
  | menuEdit (i : Nat) (f : MenuForm)
  | menuDel (i : Nat)
  | svcAdd (f : ServiceForm)
  | seed
  deriving Repr

/-- The store transition of one operation. -/
def applyOp (st : St) : Op → St
  | .menuAdd f => (add_menu st f).2
  | .menuEdit i f => (edit_menu st i f).2
  | .menuDel i => (delete_menu st i).2
  | .svcAdd f => (add_service st f).2
  | .seed => seed_data st

/-- Run a trace from a given store. -/
def runFrom (st : St) : List Op → St
  | [] => st
  | o :: rest => runFrom (applyOp st o) rest

/-- Run a trace from process start. -/
def runOps (l : List Op) : St := runFrom initSt l

/-- The menu identifiers one operation assigns in a given store: a successful
creation assigns the counter value it consumed, seeding assigns four. -/
def opAssigns (st : St) : Op → List Nat
  | .menuAdd f => if (coerce_price f.price).isOk then [st.menu_id_seq] else []
  | .seed =>
    if st.menu = [] ∧ st.services = [] then
      [st.menu_id_seq, st.menu_id_seq + 1, st.menu_id_seq + 2, st.menu_id_seq + 3]
    else []
  | _ => []

/-- The menu identifiers a trace assigns (ghost observer of the run). -/
def menuAssignedFrom (st : St) : List Op → List Nat
  | [] => []
  | o :: rest => opAssigns st o ++ menuAssignedFrom (applyOp st o) rest


/-! ### Abstraction lemmas: raw fractions vs rational values -/

theorem ipow2_cast (n : Nat) : ((ipow2 n : Int) : ℚ) = 2 ^ n := by
  simp [ipow2]

theorem ipow2_pos (n : Nat) : (0 : Int) < ipow2 n :=
  Int.ofNat_pos.mpr (pow_pos (by norm_num) n)

theorem ipow10_pos (n : Nat) : (0 : Int) < ipow10 n :=
  Int.ofNat_pos.mpr (pow_pos (by norm_num) n)

theorem qpow2_pos (e : Int) : 0 < qpow2 e := zpow_pos (by norm_num) e

theorem qpow2_nonneg (e : Int) : 0 ≤ qpow2 e := (qpow2_pos e).le

theorem qpow2_mul (a b : Int) : qpow2 a * qpow2 b = qpow2 (a + b) :=
  (zpow_add₀ (by norm_num) a b).symm

theorem qpow2_le_qpow2 {a b : Int} (h : a ≤ b) : qpow2 a ≤ qpow2 b :=
  zpow_le_zpow_right₀ (by norm_num) h

theorem qpow2_le_iff {a b : Int} : qpow2 a ≤ qpow2 b ↔ a ≤ b :=
  zpow_le_zpow_iff_right₀ (by norm_num)

theorem qpow2_lt_qpow2 {a b : Int} (h : a < b) : qpow2 a < qpow2 b :=
  zpow_lt_zpow_right₀ (by norm_num) h

theorem qpow2_one : qpow2 1 = 2 := zpow_one 2

theorem qpow2_succ (a : Int) : qpow2 (a + 1) = qpow2 a * 2 := by
  rw [← qpow2_mul, qpow2_one]

theorem qpow2_neg_mul_self (e : Int) : qpow2 (-e) * qpow2 e = 1 := by
  rw [qpow2_mul]
  simp [qpow2]

theorem qpow2_natCast (n : Nat) : qpow2 (n : Int) = 2 ^ n := zpow_natCast 2 n

theorem qpow2_neg_natCast (n : Nat) : qpow2 (-(n : Int)) = 1 / 2 ^ n := by
  rw [qpow2, zpow_neg, zpow_natCast, one_div]

namespace PRat

theorem den_cast_pos {q : PRat} (h : 0 < q.den) : (0 : ℚ) < (q.den : ℚ) := by
  exact_mod_cast h

theorem val_pos_iff {q : PRat} (h : 0 < q.den) : 0 < q.val ↔ 0 < q.num := by
  rw [val, div_pos_iff]
  constructor
  · rintro (⟨h1, _⟩ | ⟨_, h2⟩)
    · exact_mod_cast h1
    · exact absurd (den_cast_pos h) (not_lt.mpr h2.le)
  · intro h1
    exact Or.inl ⟨by exact_mod_cast h1, den_cast_pos h⟩

theorem val_nonneg_iff {q : PRat} (h : 0 < q.den) : 0 ≤ q.val ↔ 0 ≤ q.num := by
  rw [val, div_nonneg_iff]
  constructor
  · rintro (⟨h1, _⟩ | ⟨_, h2⟩)
    · exact_mod_cast h1
    · exact absurd (den_cast_pos h) (not_lt.mpr h2)
  · intro h1
    exact Or.inl ⟨by exact_mod_cast h1, (den_cast_pos h).le⟩

theorem val_zero_of_num_zero {q : PRat} (h : q.num = 0) : q.val = 0 := by
  simp [val, h]

theorem val_one_one : (⟨1, 1⟩ : PRat).val = 1 := by norm_num [val]

theorem val_int_one (m : Int) : (⟨m, 1⟩ : PRat).val = (m : ℚ) := by simp [val]

theorem den_mul2z {q : PRat} (h : 0 < q.den) (e : Int) : 0 < (q.mul2z e).den := by
  unfold mul2z
  split
  · exact h
  · exact mul_pos h (ipow2_pos _)

theorem val_mul2z {q : PRat} (h : 0 < q.den) (e : Int) :
    (q.mul2z e).val = q.val * qpow2 e := by
  unfold mul2z
  split
  · rename_i he
    have h2 : qpow2 e = (2 : ℚ) ^ e.toNat := by
      rw [qpow2, ← zpow_natCast]
      congr 1
      omega
    show ((q.num * ipow2 e.toNat : Int) : ℚ) / (q.den : ℚ) = _
    rw [Int.cast_mul, ipow2_cast, h2, val]
    ring
  · rename_i he
    have h2 : qpow2 e = ((2 : ℚ) ^ (-e).toNat)⁻¹ := by
      rw [qpow2, ← zpow_natCast, ← zpow_neg]
      congr 1
      omega
    show (q.num : ℚ) / ((q.den * ipow2 (-e).toNat : Int) : ℚ) = _
    rw [Int.cast_mul, ipow2_cast, h2, val, div_mul_eq_div_div, div_eq_mul_inv]

theorem val_mul100 (q : PRat) : (⟨q.num * 100, q.den⟩ : PRat).val = 100 * q.val := by
  show ((q.num * 100 : Int) : ℚ) / _ = _
  rw [Int.cast_mul, val]
  push_cast
  ring

theorem val_neg (q : PRat) : (⟨-q.num, q.den⟩ : PRat).val = -q.val := by
  show ((-q.num : Int) : ℚ) / _ = _
  rw [Int.cast_neg, val, neg_div]

theorem leB_iff {a b : PRat} (ha : 0 < a.den) (hb : 0 < b.den) :
    a.leB b = true ↔ a.val ≤ b.val := by
  rw [leB, decide_eq_true_eq, val, val,
    div_le_div_iff (den_cast_pos ha) (den_cast_pos hb)]
  exact ⟨fun h => by exact_mod_cast h, fun h => by exact_mod_cast h⟩

theorem emod_bounds {q : PRat} (h : 0 < q.den) :
    0 ≤ q.num - q.floor * q.den ∧ q.num - q.floor * q.den < q.den := by
  have h0 := Int.ediv_add_emod q.num q.den
  rw [Int.mul_comm q.den (q.num / q.den)] at h0
  have h1 := Int.emod_nonneg q.num (by omega : q.den ≠ 0)
  have h2 := Int.emod_lt_of_pos q.num h
  unfold floor
  omega

theorem floor_decomp {q : PRat} (h : 0 < q.den) :
    q.val = (q.floor : ℚ) + ((q.num - q.floor * q.den : Int) : ℚ) / (q.den : ℚ) := by
  have hdq : (q.den : ℚ) ≠ 0 := (den_cast_pos h).ne'
  rw [val]
  push_cast
  field_simp

theorem rne_floor_or (q : PRat) : q.rne = q.floor ∨ q.rne = q.floor + 1 := by
  simp only [rne]
  split
  · exact Or.inl rfl
  · split
    · exact Or.inr rfl
    · split
      · exact Or.inl rfl
      · exact Or.inr rfl

theorem rne_abs_le {q : PRat} (h : 0 < q.den) : |(q.rne : ℚ) - q.val| ≤ 1 / 2 := by
  obtain ⟨hr0, hr1⟩ := emod_bounds h
  have hval := floor_decomp h
  have hdq : (0 : ℚ) < (q.den : ℚ) := den_cast_pos h
  have hrq0 : (0 : ℚ) ≤ ((q.num - q.floor * q.den : Int) : ℚ) := by exact_mod_cast hr0
  have hfrac0 : (0 : ℚ) ≤ ((q.num - q.floor * q.den : Int) : ℚ) / (q.den : ℚ) :=
    div_nonneg hrq0 hdq.le
  simp only [rne]
  split
  · rename_i hlt
    have hhalf : ((q.num - q.floor * q.den : Int) : ℚ) / (q.den : ℚ) < 1 / 2 := by
      rw [div_lt_div_iff hdq (by norm_num)]
      have h2 : ((q.num - q.floor * q.den : Int) : ℚ) * 2 < (q.den : ℚ) := by
        exact_mod_cast (by omega : (q.num - q.floor * q.den) * 2 < q.den)
      linarith
    rw [hval, abs_sub_comm, add_sub_cancel_left, abs_of_nonneg hfrac0]
    exact hhalf.le
  · split
    · rename_i hge hgt
      have hhalf : 1 / 2 < ((q.num - q.floor * q.den : Int) : ℚ) / (q.den : ℚ) := by
        rw [div_lt_div_iff (by norm_num) hdq]
        have h2 : (q.den : ℚ) < ((q.num - q.floor * q.den : Int) : ℚ) * 2 := by
          exact_mod_cast (by omega : q.den < (q.num - q.floor * q.den) * 2)
        linarith
      have hfrac1 : ((q.num - q.floor * q.den : Int) : ℚ) / (q.den : ℚ) < 1 := by
        rw [div_lt_one hdq]
        exact_mod_cast hr1
      rw [hval]
      have hrw : ((q.floor + 1 : Int) : ℚ) -
          ((q.floor : ℚ) + ((q.num - q.floor * q.den : Int) : ℚ) / (q.den : ℚ))
          = 1 - ((q.num - q.floor * q.den : Int) : ℚ) / (q.den : ℚ) := by
        push_cast
        ring
      rw [hrw, abs_of_nonneg (by linarith)]
      linarith
    · rename_i hge hle
      have htie : ((q.num - q.floor * q.den : Int) : ℚ) / (q.den : ℚ) = 1 / 2 := by
        rw [div_eq_div_iff hdq.ne' (by norm_num : (2:ℚ) ≠ 0)]
        have h2 : ((q.num - q.floor * q.den : Int) : ℚ) * 2 = (q.den : ℚ) := by
          exact_mod_cast (by omega : (q.num - q.floor * q.den) * 2 = q.den)
        linarith
      split
      · rw [hval, abs_sub_comm, add_sub_cancel_left, abs_of_nonneg hfrac0, htie]
      · rw [hval]
        have hrw : ((q.floor + 1 : Int) : ℚ) -
            ((q.floor : ℚ) + ((q.num - q.floor * q.den : Int) : ℚ) / (q.den : ℚ))
            = 1 - ((q.num - q.floor * q.den : Int) : ℚ) / (q.den : ℚ) := by
          push_cast
          ring
        rw [hrw, htie, abs_of_nonneg (by norm_num)]
        norm_num

theorem rne_eq_of_close {q : PRat} (h : 0 < q.den) (m : Int)
    (hc : |q.val - (m : ℚ)| < 1 / 2) : q.rne = m := by
  have h1 := rne_abs_le h
  have h2 : |(q.rne : ℚ) - (m : ℚ)| < 1 :=
    calc |(q.rne : ℚ) - (m : ℚ)|
        ≤ |(q.rne : ℚ) - q.val| + |q.val - (m : ℚ)| := abs_sub_le _ _ _
      _ < 1 / 2 + 1 / 2 := add_lt_add_of_le_of_lt h1 hc
      _ = 1 := by norm_num
  have h3 : |((q.rne - m : Int) : ℚ)| < 1 := by
    push_cast
    exact h2
  have h4 : |q.rne - m| < 1 := by exact_mod_cast h3
  rw [abs_lt] at h4
  omega

theorem floor_nonneg {q : PRat} (h : 0 < q.den) (h0 : 0 ≤ q.val) : 0 ≤ q.floor := by
  by_contra hneg
  push_neg at hneg
  have hle : q.floor ≤ -1 := by omega
  obtain ⟨hr0, hr1⟩ := emod_bounds h
  have hmul : q.floor * q.den ≤ -1 * q.den := mul_le_mul_of_nonneg_right hle h.le
  have hnum : q.num < 0 := by linarith
  have := (val_nonneg_iff h).mp h0
  omega

theorem rne_nonneg {q : PRat} (h : 0 < q.den) (h0 : 0 ≤ q.val) : 0 ≤ q.rne := by
  have := floor_nonneg h h0
  rcases rne_floor_or q with he | he <;> omega

end PRat

/-! ### The binary logarithm and the binary64 rounding error -/

theorem log2F_spec : ∀ (fuel n : Nat), n ≤ fuel → 0 < n →
    2 ^ log2F fuel n ≤ n ∧ n < 2 ^ (log2F fuel n + 1) := by
  intro fuel
  induction fuel with
  | zero => intro n h1 h2; omega
  | succ fuel ih =>
    intro n h1 h2
    simp only [log2F]
    split
    · rename_i hle
      have hn1 : n = 1 := by omega
      subst hn1
      norm_num
    · rename_i hgt
      have hdiv_le : n / 2 ≤ fuel := by omega
      have hdiv_pos : 0 < n / 2 := by omega
      obtain ⟨ha, hb⟩ := ih (n / 2) hdiv_le hdiv_pos
      set L := log2F fuel (n / 2) with hL
      have e1 : 2 ^ (L + 1) = 2 * 2 ^ L := by rw [pow_succ]; ring
      have e2 : 2 ^ (L + 1 + 1) = 2 * 2 ^ (L + 1) := by rw [pow_succ 2 (L + 1)]; ring
      constructor
      · omega
      · omega

theorem nlog2_spec (n : Nat) (h : 0 < n) : 2 ^ nlog2 n ≤ n ∧ n < 2 ^ (nlog2 n + 1) :=
  log2F_spec n n le_rfl h

theorem floorLog2P_le {q : PRat} (hn : 0 < q.num) (hd : 0 < q.den) :
    qpow2 (floorLog2P q) ≤ q.val := by
  have hnt : 0 < q.num.toNat := by omega
  have hdt : 0 < q.den.toNat := by omega
  obtain ⟨ha1, _⟩ := nlog2_spec _ hnt
  obtain ⟨_, hb2⟩ := nlog2_spec _ hdt
  set a := nlog2 q.num.toNat with hA
  set b := nlog2 q.den.toNat with hB
  have hna : ((2 : ℚ)) ^ a ≤ (q.num : ℚ) := by
    have h1 : ((2 : ℤ)) ^ a ≤ q.num := by
      rw [← Int.toNat_of_nonneg hn.le]
      exact_mod_cast ha1
    exact_mod_cast h1
  have hnb : (q.den : ℚ) < ((2 : ℚ)) ^ (b + 1) := by
    have h1 : q.den < ((2 : ℤ)) ^ (b + 1) := by
      rw [← Int.toNat_of_nonneg hd.le]
      exact_mod_cast hb2
    exact_mod_cast h1
  simp only [floorLog2P]
  split
  · rename_i hTrue
    have hwd : 0 < (PRat.mul2z ⟨1, 1⟩ ((a : ℤ) - (b : ℤ))).den :=
      PRat.den_mul2z (by norm_num) _
    have := (PRat.leB_iff hwd hd).mp hTrue
    rwa [PRat.val_mul2z (by norm_num) _, PRat.val_one_one, one_mul] at this
  · have hsplit : qpow2 ((a : ℤ) - (b : ℤ) - 1) = (2 : ℚ) ^ a / (2 : ℚ) ^ (b + 1) := by
      rw [qpow2, ← zpow_natCast (2 : ℚ) a, ← zpow_natCast (2 : ℚ) (b + 1),
        ← zpow_sub₀ (by norm_num : (2 : ℚ) ≠ 0)]
      congr 1
      push_cast
      ring
    rw [hsplit, PRat.val]
    apply div_le_div (by positivity) hna (PRat.den_cast_pos hd) hnb.le

theorem roundPosB64_close {q : PRat} (hn : 0 < q.num) (hd : 0 < q.den)
    (hb : q.val ≤ qpow2 1023) :
    ∃ r : PRat, roundPosB64 q = .finite r ∧ 0 < r.den ∧ 0 ≤ r.num ∧
      |r.val - q.val| ≤ q.val * qpow2 (-53) + qpow2 (-1075) := by
  have hqpos : 0 < q.val := (PRat.val_pos_iff hd).mpr hn
  have hfle : qpow2 (floorLog2P q) ≤ q.val := floorLog2P_le hn hd
  have he1023 : floorLog2P q ≤ 1023 := qpow2_le_iff.mp (hfle.trans hb)
  set e := floorLog2P q with hE
  set s : Int := max (e - 52) (-1074) with hS
  have hs_le : s ≤ 971 := by
    rw [hS]
    apply max_le <;> omega
  set w := q.mul2z (-s) with hW
  have hwd : 0 < w.den := PRat.den_mul2z hd _
  have hwv : w.val = q.val * qpow2 (-s) := PRat.val_mul2z hd _
  have hwpos : 0 < w.val := by
    rw [hwv]
    exact mul_pos hqpos (qpow2_pos _)
  set m := w.rne with hM
  have hm0 : 0 ≤ m := PRat.rne_nonneg hwd hwpos.le
  have hmw : |(m : ℚ) - w.val| ≤ 1 / 2 := PRat.rne_abs_le hwd
  set r0 : PRat := PRat.mul2z ⟨m, 1⟩ s with hR0
  have hr0d : 0 < r0.den := PRat.den_mul2z (by norm_num) _
  have hr0v : r0.val = (m : ℚ) * qpow2 s := by
    rw [hR0, PRat.val_mul2z (by norm_num) s, PRat.val_int_one]
  have hdiff : r0.val - q.val = ((m : ℚ) - w.val) * qpow2 s := by
    rw [hr0v, hwv, sub_mul, mul_assoc, qpow2_neg_mul_self, mul_one]
  have key : |r0.val - q.val| ≤ qpow2 s * (1 / 2) := by
    rw [hdiff, abs_mul, abs_of_pos (qpow2_pos s), mul_comm]
    exact mul_le_mul_of_nonneg_left hmw (qpow2_nonneg s)
  have hhalfpow : (1 : ℚ) / 2 = qpow2 (-1) := by
    rw [qpow2]
    norm_num
  have hhalf : qpow2 s * (1 / 2) ≤ q.val * qpow2 (-53) + qpow2 (-1075) := by
    rcases le_or_lt (-1074 : Int) (e - 52) with hc | hc
    · have hse : s = e - 52 := by rw [hS]; exact max_eq_left (by omega)
      have h1 : qpow2 s * (1 / 2) = qpow2 (e - 53) := by
        rw [hse, hhalfpow, qpow2_mul]
        congr 1
        ring
      have h2 : qpow2 (e - 53) = qpow2 e * qpow2 (-53) := by
        rw [qpow2_mul]
        congr 1
      have h3 : qpow2 e * qpow2 (-53) ≤ q.val * qpow2 (-53) :=
        mul_le_mul_of_nonneg_right hfle (qpow2_nonneg _)
      rw [h1, h2]
      linarith [qpow2_pos (-1075 : Int)]
    · have hse : s = -1074 := by rw [hS]; exact max_eq_right (by omega)
      have h1 : qpow2 s * (1 / 2) = qpow2 (-1075) := by
        rw [hse, hhalfpow, qpow2_mul]
        norm_num
      rw [h1]
      have := mul_nonneg hqpos.le (qpow2_nonneg (-53 : Int))
      linarith
  have hbound : |r0.val - q.val| ≤ q.val * qpow2 (-53) + qpow2 (-1075) := key.trans hhalf
  have hr0up : r0.val ≤ q.val + (q.val * qpow2 (-53) + qpow2 (-1075)) := by
    have h := abs_le.mp hbound
    linarith [h.2]
  have hlt : r0.val < qpow2 1024 := by
    have t1 : q.val * qpow2 (-53) ≤ qpow2 1023 * qpow2 (-53) :=
      mul_le_mul_of_nonneg_right hb (qpow2_nonneg _)
    have t2 : qpow2 1023 * qpow2 (-53) = qpow2 970 := by
      rw [qpow2_mul]
      norm_num
    have t3 : qpow2 (-1075 : Int) ≤ qpow2 970 := qpow2_le_qpow2 (by norm_num)
    have t4 : qpow2 970 + qpow2 970 = qpow2 971 := by
      rw [show (971 : Int) = 970 + 1 from by norm_num, qpow2_succ]
      ring
    have t5 : qpow2 971 < qpow2 1023 := qpow2_lt_qpow2 (by norm_num)
    have t6 : qpow2 1023 + qpow2 1023 = qpow2 1024 := by
      rw [show (1024 : Int) = 1023 + 1 from by norm_num, qpow2_succ]
      ring
    linarith
  have hguard : ¬ (ipow2 (1024 - s).toNat ≤ m) := by
    intro hcon
    have hcast : ((ipow2 (1024 - s).toNat : Int) : ℚ) = qpow2 (1024 - s) := by
      rw [ipow2_cast, ← qpow2_natCast]
      congr 1
      omega
    have h1 : qpow2 (1024 - s) ≤ (m : ℚ) := by
      rw [← hcast]
      exact_mod_cast hcon
    have h2 : qpow2 (1024 - s) * qpow2 s ≤ (m : ℚ) * qpow2 s :=
      mul_le_mul_of_nonneg_right h1 (qpow2_nonneg s)
    rw [qpow2_mul, show (1024 : Int) - s + s = 1024 from by ring, ← hr0v] at h2
    linarith
  refine ⟨r0, ?_, hr0d, ?_, hbound⟩
  · show roundPosB64 q = PyFloat.finite r0
    simp only [roundPosB64]
    rw [← hE, ← hS, ← hW, ← hM, ← hR0, if_neg hguard]
  · rw [hR0]
    unfold PRat.mul2z
    split
    · exact mul_nonneg hm0 (ipow2_pos _).le
    · exact hm0

theorem roundB64_pos_close {q : PRat} (hn : 0 < q.num) (hd : 0 < q.den)
    (hb : q.val ≤ qpow2 1023) :
    ∃ r : PRat, roundB64 q = .finite r ∧ 0 < r.den ∧ 0 ≤ r.num ∧
      |r.val - q.val| ≤ q.val * qpow2 (-53) + qpow2 (-1075) := by
  obtain ⟨r, h1, h2, h3, h4⟩ := roundPosB64_close hn hd hb
  refine ⟨r, ?_, h2, h3, h4⟩
  unfold roundB64
  rw [if_neg (by omega : ¬ q.num = 0), if_pos hn]
  exact h1

theorem roundB64_num_zero {q : PRat} (h : q.num = 0) : roundB64 q = .finite ⟨0, 1⟩ := by
  unfold roundB64
  rw [if_pos h]

/-! ### The `coerce_price` success path -/

theorem decValue_den (sign : Bool) (m : Nat) (sc : Int) : 0 < (decValue sign m sc).den := by
  unfold decValue PRat.mul10z
  split
  · norm_num
  · show (0 : Int) < 1 * ipow10 _
    rw [one_mul]
    exact ipow10_pos _

theorem parseFrac_den {sign : Bool} {iv ic : Nat} {r2 : List Char} {q : PRat}
    (h : parseFrac sign iv ic r2 = some q) : 0 < q.den := by
  simp only [parseFrac] at h
  split at h
  · exact absurd h (by simp)
  · split at h
    · rw [Option.some.inj h.symm]
      exact decValue_den _ _ _
    · split at h
      · rw [Option.map_eq_some'] at h
        obtain ⟨e, _, he⟩ := h
        rw [← he]
        exact decValue_den _ _ _
      · exact absurd h (by simp)

theorem parseTail_den {sign : Bool} {iv ic : Nat} {rest : List Char} {q : PRat}
    (h : parseTail sign iv ic rest = some q) : 0 < q.den := by
  simp only [parseTail] at h
  split at h
  · split at h
    · exact absurd h (by simp)
    · rw [Option.some.inj h.symm]
      exact decValue_den _ _ _
  · split at h
    · exact parseFrac_den h
    · split at h
      · rw [Option.map_eq_some'] at h
        obtain ⟨e, _, he⟩ := h
        rw [← he]
        exact decValue_den _ _ _
      · exact absurd h (by simp)

theorem parseDec_den {sign : Bool} {cs : List Char} {q : PRat}
    (h : parseDec sign cs = some q) : 0 < q.den := by
  simp only [parseDec] at h
  split at h
  · exact parseTail_den h
  · exact parseTail_den h

theorem parseAfterSign_rat_den {sg : Bool} {l : List Char} {q : PRat}
    (h : parseAfterSign sg l = some (.rat q)) : 0 < q.den := by
  simp only [parseAfterSign] at h
  split at h
  · simp at h
  · split at h
    · simp at h
    · rw [Option.map_eq_some'] at h
      obtain ⟨p, hp, hinj⟩ := h
      rw [← PyLit.rat.inj hinj]
      exact parseDec_den hp

theorem parsePyLit_rat_den {cs : List Char} {q : PRat}
    (h : parsePyLit cs = some (.rat q)) : 0 < q.den := by
  simp only [parsePyLit] at h
  split at h
  · exact parseAfterSign_rat_den h
  · split at h
    · exact parseAfterSign_rat_den h
    · split at h
      · exact parseAfterSign_rat_den h
      · exact parseAfterSign_rat_den h

/-- The success path of `coerce_price`: a parsed non-negative value within the
binary64 range is accepted, and the returned integer is the ties-to-even
rounding of a rational within relative error `2^-51` of `100 x` the value. -/
theorem coerce_ok_of_parse {s : String} {q : PRat}
    (hp : parsePyLit (cleanPrice s) = some (.rat q))
    (hd : 0 < q.den) (hnn : 0 ≤ q.num) (hb : q.val ≤ qpow2 1015) :
    ∃ r2 : PRat, 0 < r2.den ∧ 0 ≤ r2.val ∧
      coerce_price s = .ok (PRat.rne r2) ∧
      |r2.val - 100 * q.val| ≤ 100 * q.val * qpow2 (-51) + qpow2 (-50) := by
  have hne : cleanPrice s ≠ [] := by
    intro h0
    rw [h0] at hp
    exact absurd hp (by rw [show parsePyLit ([] : List Char) = none from rfl]; simp)
  have hpf : pyFloatOfChars (cleanPrice s) = some (roundB64 q) := by
    rw [pyFloatOfChars, hp]
    rfl
  have ea : qpow2 (-53 : Int) = 1 / 2 ^ 53 := by rw [qpow2]; norm_num
  have eb : qpow2 (-1075 : Int) = 1 / 2 ^ 1075 := by rw [qpow2]; norm_num
  have ec : qpow2 (-51 : Int) = 1 / 2 ^ 51 := by rw [qpow2]; norm_num
  have ed : qpow2 (-50 : Int) = 1 / 2 ^ 50 := by rw [qpow2]; norm_num
  have hq0 : 0 ≤ q.val := (PRat.val_nonneg_iff hd).mpr hnn
  rcases eq_or_lt_of_le hnn with hz | hpos
  · -- the parsed value is zero
    have hz' : q.num = 0 := hz.symm
    have hstep : coerce_price s
        = if floatNegB (.finite ⟨0, 1⟩) = true
          then Except.error (PyErr.valueError "Price cannot be negative")
          else pyRoundInt (floatMul100 (.finite ⟨0, 1⟩)) := by
      simp only [coerce_price]
      rw [if_neg hne, hpf, roundB64_num_zero hz']
    refine ⟨⟨0, 1⟩, by norm_num, by rw [PRat.val]; norm_num, ?_, ?_⟩
    · rw [hstep]
      rfl
    · rw [PRat.val_zero_of_num_zero hz', PRat.val]
      norm_num
      exact qpow2_nonneg _
  · -- the parsed value is positive
    have hb' : q.val ≤ qpow2 1023 := hb.trans (qpow2_le_qpow2 (by norm_num))
    obtain ⟨r1, hr1eq, hr1d, hr1n, hr1b⟩ := roundB64_pos_close hpos hd hb'
    have hr1v0 : 0 ≤ r1.val := (PRat.val_nonneg_iff hr1d).mpr hr1n
    have hneg : floatNegB (.finite r1) = false := by
      simp [floatNegB]
      omega
    have hstep : coerce_price s
        = if floatNegB (.finite r1) = true
          then Except.error (PyErr.valueError "Price cannot be negative")
          else pyRoundInt (floatMul100 (.finite r1)) := by
      simp only [coerce_price]
      rw [if_neg hne, hpf, hr1eq]
    rw [ea, eb] at hr1b
    have k1 := (abs_le.mp hr1b).1
    have k2 := (abs_le.mp hr1b).2
    rcases eq_or_lt_of_le hr1n with hz1 | hpos1
    · -- the rounded value flushed to zero (subnormal underflow)
      have hz1' : r1.num = 0 := hz1.symm
      have hr1vz : r1.val = 0 := PRat.val_zero_of_num_zero hz1'
      have hq2z : (⟨r1.num * 100, r1.den⟩ : PRat).num = 0 := by simp [hz1']
      have hmul : floatMul100 (.finite r1) = .finite ⟨0, 1⟩ := by
        show roundB64 ⟨r1.num * 100, r1.den⟩ = _
        exact roundB64_num_zero hq2z
      refine ⟨⟨0, 1⟩, by norm_num, by rw [PRat.val]; norm_num, ?_, ?_⟩
      · rw [hstep, hneg]
        rw [if_neg (by simp), hmul]
        rfl
      · rw [hr1vz] at k2
        rw [ec, ed, show PRat.val ⟨0, 1⟩ = 0 from by rw [PRat.val]; norm_num]
        rw [abs_le]
        constructor <;> nlinarith [hq0, hpos]
    · -- the rounded value is positive: a second rounding for the product
      set q2 : PRat := ⟨r1.num * 100, r1.den⟩ with hQ2
      have hq2d : 0 < q2.den := hr1d
      have hq2n : 0 < q2.num := by rw [hQ2]; positivity
      have hq2v : q2.val = 100 * r1.val := PRat.val_mul100 r1
      have e15 : qpow2 (1015 : Int) = 2 ^ 1015 := by rw [qpow2]; norm_num
      have e23 : qpow2 (1023 : Int) = 2 ^ 1023 := by rw [qpow2]; norm_num
      have hq2b : q2.val ≤ qpow2 1023 := by
        rw [hq2v, e23]
        rw [e15] at hb
        nlinarith [hq0]
      obtain ⟨r2, hr2eq, hr2d, hr2n, hr2b⟩ := roundB64_pos_close hq2n hq2d hq2b
      have hmul : floatMul100 (.finite r1) = roundB64 q2 := rfl
      refine ⟨r2, hr2d, (PRat.val_nonneg_iff hr2d).mpr hr2n, ?_, ?_⟩
      · rw [hstep, hneg]
        rw [if_neg (by simp), hmul, hr2eq]
        rfl
      · rw [ea, eb] at hr2b
        rw [hq2v] at hr2b
        have k3 := (abs_le.mp hr2b).1
        have k4 := (abs_le.mp hr2b).2
        rw [ec, ed, abs_le]
        rw [e15] at hb
        constructor <;> nlinarith [hq0, hr1v0]

instance {α β : Type} [DecidableEq α] [DecidableEq β] : DecidableEq (Except α β) := fun a b =>
  match a, b with
  | .error x, .error y =>
    if h : x = y then .isTrue (by rw [h]) else .isFalse (fun hh => h (Except.error.inj hh))
  | .error _, .ok _ => .isFalse (fun hh => Except.noConfusion hh)
  | .ok _, .error _ => .isFalse (fun hh => Except.noConfusion hh)
  | .ok x, .ok y =>
    if h : x = y then .isTrue (by rw [h]) else .isFalse (fun hh => h (Except.ok.inj hh))

/-! ### Claims about the price parser (C1, C2, C3) -/

/-- C1, counterexample: the claim "parse_price returns round(100 x exact value of
s), whether round-half-even or round-half-away" fails on the valid decimal string
"0.005000000000000000000001": its exact value times 100 is 0.50000000000000000000014,
whose nearest integer is 1 under either tie rule, yet `coerce_price` returns 0,
because the text first rounds to the binary64 value 0.005 and the float product
then rounds to exactly 0.5, which `round()` takes to 0. -/
theorem C1_parse_price_cex :
    parsePyLit (cleanPrice "0.005000000000000000000001")
        = some (.rat ⟨5000000000000000000001, 10 ^ 24⟩)
    ∧ PRat.rne ⟨5000000000000000000001 * 100, 10 ^ 24⟩ = 1
    ∧ PRat.rha ⟨5000000000000000000001 * 100, 10 ^ 24⟩ = 1
    ∧ coerce_price "0.005000000000000000000001" = .ok 0
    ∧ (0 : Int) ≠ 1 := by
  refine ⟨by decide, by decide, by decide, by decide, by decide⟩

/-- C1 (amended): for every valid decimal string whose exact value is `k / 100`
with `k ≤ 10^14` (at most two fractional digits, value at most 10^12),
`coerce_price` returns exactly `k`, which is round(100 x value) under either tie
rule; for longer fractions the two binary64 roundings can land on the other side
of a midpoint, as the counterexample shows. -/
theorem C1_parse_price_exact (s : String) (k : Nat) (q : PRat)
    (hp : parsePyLit (cleanPrice s) = some (.rat q))
    (hv : q.val = (k : ℚ) / 100)
    (hk : k ≤ 10 ^ 14) :
    coerce_price s = .ok (k : Int) := by
  have hd : 0 < q.den := parsePyLit_rat_den hp
  have hnn : 0 ≤ q.num := by
    rw [← PRat.val_nonneg_iff hd, hv]
    positivity
  have hkq : ((k : ℚ)) ≤ 10 ^ 14 := by exact_mod_cast hk
  have hb : q.val ≤ qpow2 1015 := by
    rw [hv, qpow2]
    have h1 : (k : ℚ) / 100 ≤ (k : ℚ) := div_le_self (by positivity) (by norm_num)
    have h2 : ((k : ℚ)) ≤ (2 : ℚ) ^ (1015 : Int) := by
      calc ((k : ℚ)) ≤ 10 ^ 14 := hkq
        _ ≤ (2 : ℚ) ^ (1015 : Int) := by norm_num
    linarith
  obtain ⟨r2, hr2d, hr2nn, hok, hbound⟩ := coerce_ok_of_parse hp hd hnn hb
  have hsimp : 100 * ((k : ℚ) / 100) = (k : ℚ) := by field_simp
  rw [hv, hsimp] at hbound
  have ec : qpow2 (-51 : Int) = 1 / 2 ^ 51 := by rw [qpow2]; norm_num
  have ed : qpow2 (-50 : Int) = 1 / 2 ^ 50 := by rw [qpow2]; norm_num
  rw [ec, ed] at hbound
  have hclose : |r2.val - (k : ℚ)| < 1 / 2 := by
    have h2 : (k : ℚ) * (1 / 2 ^ 51) ≤ 10 ^ 14 * (1 / 2 ^ 51) := by
      apply mul_le_mul_of_nonneg_right hkq
      norm_num
    have h3 : (10 ^ 14 : ℚ) * (1 / 2 ^ 51) + 1 / 2 ^ 50 < 1 / 2 := by norm_num
    have h4 := (abs_le.mp hbound).1
    have h5 := (abs_le.mp hbound).2
    rw [abs_lt]
    constructor <;> linarith
  have hrk : PRat.rne r2 = (k : Int) := by
    apply PRat.rne_eq_of_close hr2d
    push_cast
    exact hclose
  rw [hok, hrk]

theorem C1_parse_price_exact_witness : coerce_price "12.34" = .ok 1234 := by
  have h := C1_parse_price_exact "12.34" 1234 ⟨1234, 100⟩ (by decide)
      (by rw [PRat.val]; norm_num) (by norm_num)
  rw [show ((1234 : Nat) : Int) = 1234 from by norm_num] at h
  exact h

/-- C2, counterexample: the claim "no exception class other than ValidationError
ever escapes, and arbitrarily large valid decimal values are accepted" fails on
the 309-digit string 2 followed by 308 zeros: `float` saturates to infinity, and
`round(inf)` raises `OverflowError`, which is not a `ValueError`, so the
`except ValueError` in `add_menu` does not catch it and it escapes. -/
theorem C2_overflow_cex :
    coerce_price (String.mk ('2' :: List.replicate 308 '0'))
        = .error (.overflowError "cannot convert float infinity to integer")
    ∧ (add_menu initSt
        ⟨"Big", String.mk ('2' :: List.replicate 308 '0'), "", none, none⟩).1 = .uncaught
    ∧ (∀ msg, PyErr.overflowError "cannot convert float infinity to integer"
        ≠ PyErr.valueError msg) := by
  refine ⟨by decide, by decide, ?_⟩
  intro msg h
  cases h

/-- C2 (amended): `coerce_price` returns a minor-unit integer for every parsed
non-negative decimal value up to `2^1015`; `ValueError` cases are caught by
`add_menu` and surfaced as an error redirect; but at or beyond the binary64
overflow threshold `round()` raises `OverflowError`, which escapes the handler
uncaught (so there is an upper bound, roughly 1.8e308). -/
theorem C2_no_escape_amended (s : String) (q : PRat)
    (hp : parsePyLit (cleanPrice s) = some (.rat q))
    (hnn : 0 ≤ q.num) (hb : q.val ≤ qpow2 1015) :
    (∃ n : Int, 0 ≤ n ∧ coerce_price s = .ok n)
    ∧ (∀ (st : St) (f : MenuForm) (msg : String),
        coerce_price f.price = .error (.valueError msg) →
        add_menu st f = (.redirect 303 ("/manage?err=" ++ msg), st))
    ∧ (∀ (st : St) (f : MenuForm) (msg : String),
        coerce_price f.price = .error (.overflowError msg) →
        (add_menu st f).1 = .uncaught) := by
  refine ⟨?_, ?_, ?_⟩
  · have hd := parsePyLit_rat_den hp
    obtain ⟨r2, hr2d, hr2nn, hok, _⟩ := coerce_ok_of_parse hp hd hnn hb
    exact ⟨PRat.rne r2, PRat.rne_nonneg hr2d hr2nn, hok⟩
  · intro st f msg h
    unfold add_menu
    rw [h]
  · intro st f msg h
    unfold add_menu
    rw [h]

theorem C2_no_escape_amended_witness :
    ∃ n : Int, 0 ≤ n ∧ coerce_price "12.5" = .ok n :=
  (C2_no_escape_amended "12.5" ⟨125, 10⟩ (by decide) (by norm_num)
    (by rw [PRat.val, qpow2]; push_cast; norm_num)).1

/-- C3: the four invalid inputs all fail with `ValueError` (the ValidationError
class): empty, whitespace-only (empty after trimming), negative, unparseable. -/
theorem C3_invalid_inputs :
    coerce_price "" = .error (.valueError "Price required")
    ∧ coerce_price "  " = .error (.valueError "Price required")
    ∧ coerce_price "-5" = .error (.valueError "Price cannot be negative")
    ∧ coerce_price "abc"
        = .error (.valueError "could not convert string to float: 'abc'") :=
  ⟨by decide, by decide, by decide, by decide⟩

/-! ### Store invariants and identifier sequences (C4) -/

theorem eraseFirst_sublist {α : Type} (p : α → Bool) :
    ∀ {l l' : List α}, eraseFirst p l = some l' → List.Sublist l' l := by
  intro l
  induction l with
  | nil => intro l' h; simp [eraseFirst] at h
  | cons x xs ih =>
    intro l' h
    simp only [eraseFirst] at h
    split at h
    · rw [← Option.some.inj h]
      exact List.sublist_cons_self x xs
    · rw [Option.map_eq_some'] at h
      obtain ⟨t, ht, hh⟩ := h
      rw [← hh]
      exact (ih ht).cons₂ x

theorem updateFirst_map {α β : Type} (p : α → Bool) (g : α → α) (proj : α → β)
    (hg : ∀ a, proj (g a) = proj a) :
    ∀ l : List α, (updateFirst p g l).map proj = l.map proj := by
  intro l
  induction l with
  | nil => rfl
  | cons x xs ih =>
    simp only [updateFirst]
    split
    · simp [hg x]
    · simp [ih]

/-- The identifiers of a collection are non-zero, below the counter, and
pairwise distinct. -/
def idsInv (ids : List Nat) (seq : Nat) : Prop :=
  (∀ a ∈ ids, 1 ≤ a ∧ a < seq) ∧ ids.Nodup

/-- The store invariant maintained by every handler. -/
def StInv (st : St) : Prop :=
  idsInv (st.menu.map MenuItem.id) st.menu_id_seq
  ∧ idsInv (st.services.map ServiceItem.id) st.service_id_seq
  ∧ 1 ≤ st.menu_id_seq ∧ 1 ≤ st.service_id_seq

theorem initSt_inv : StInv initSt := by
  refine ⟨⟨by simp [initSt], by simp [initSt]⟩, ⟨by simp [initSt], by simp [initSt]⟩, ?_, ?_⟩ <;>
    simp [initSt]

theorem idsInv_append_new {ids : List Nat} {seq : Nat} (h : idsInv ids seq) (h1 : 1 ≤ seq) :
    idsInv (ids ++ [seq]) (seq + 1) := by
  obtain ⟨hb, hn⟩ := h
  refine ⟨?_, ?_⟩
  · intro a ha
    rcases List.mem_append.mp ha with ha | ha
    · have := hb a ha
      omega
    · simp at ha
      omega
  · refine List.Nodup.append hn (by simp) ?_
    intro a ha hb'
    simp at hb'
    have := hb a ha
    omega

theorem idsInv_mono {ids : List Nat} {s1 s2 : Nat} (h : idsInv ids s1) (hle : s1 ≤ s2) :
    idsInv ids s2 := by
  obtain ⟨hb, hn⟩ := h
  exact ⟨fun a ha => by have := hb a ha; omega, hn⟩

theorem add_menu_ok_eq (st : St) (f : MenuForm) (pc : Int)
    (h : coerce_price f.price = .ok pc) :
    ∃ it : MenuItem, it.id = st.menu_id_seq ∧ it.price_cents = pc ∧
      add_menu st f = (.redirect 303 "/manage?msg=Menu+added",
        { st with menu := st.menu ++ [it], menu_id_seq := st.menu_id_seq + 1 }) := by
  unfold add_menu
  rw [h]
  exact ⟨_, rfl, rfl, rfl⟩

theorem add_menu_err_eq (st : St) (f : MenuForm) (e : PyErr)
    (h : coerce_price f.price = .error e) : (add_menu st f).2 = st := by
  unfold add_menu
  rw [h]
  rcases e with msg | msg <;> rfl

theorem add_service_ok_eq (st : St) (f : ServiceForm) (pc : Int)
    (h : coerce_price f.price = .ok pc) :
    ∃ it : ServiceItem, it.id = st.service_id_seq ∧ it.price_cents = pc ∧
      add_service st f = (.redirect 303 "/manage?msg=Service+added#services",
        { st with services := st.services ++ [it], service_id_seq := st.service_id_seq + 1 }) := by
  unfold add_service
  rw [h]
  exact ⟨_, rfl, rfl, rfl⟩

theorem add_service_err_eq (st : St) (f : ServiceForm) (e : PyErr)
    (h : coerce_price f.price = .error e) : (add_service st f).2 = st := by
  unfold add_service
  rw [h]
  rcases e with msg | msg <;> rfl

theorem edit_menu_map_id (st : St) (i : Nat) (f : MenuForm) :
    (edit_menu st i f).2.menu.map MenuItem.id = st.menu.map MenuItem.id
    ∧ (edit_menu st i f).2.services = st.services
    ∧ (edit_menu st i f).2.menu_id_seq = st.menu_id_seq
    ∧ (edit_menu st i f).2.service_id_seq = st.service_id_seq := by
  unfold edit_menu
  rcases hf : st.menu.find? (fun m => m.id == i) with _ | it <;> rw [hf]
  · exact ⟨rfl, rfl, rfl, rfl⟩
  · rcases hres : coerce_price f.price with e | pc
    · rcases e with msg | msg <;> exact ⟨rfl, rfl, rfl, rfl⟩
    · refine ⟨?_, rfl, rfl, rfl⟩
      show List.map MenuItem.id (updateFirst (fun m => m.id == i) (applyEditTo f pc) st.menu)
          = List.map MenuItem.id st.menu
      exact updateFirst_map (fun m => m.id == i) (applyEditTo f pc) MenuItem.id
        (fun a => rfl) st.menu

theorem delete_menu_snd (st : St) (i : Nat) :
    ((delete_menu st i).2.menu_id_seq = st.menu_id_seq
      ∧ (delete_menu st i).2.services = st.services
      ∧ (delete_menu st i).2.service_id_seq = st.service_id_seq)
    ∧ List.Sublist (delete_menu st i).2.menu st.menu := by
  unfold delete_menu
  rcases he : eraseFirst (fun m => m.id == i) st.menu with _ | l' <;> rw [he]
  · exact ⟨⟨rfl, rfl, rfl⟩, List.Sublist.refl _⟩
  · exact ⟨⟨rfl, rfl, rfl⟩, eraseFirst_sublist _ he⟩

theorem seed_data_skip (st : St) (h : st.menu ≠ [] ∨ st.services ≠ []) :
    seed_data st = st := by
  unfold seed_data
  rw [if_pos h]

theorem applyOp_step {st : St} (h : StInv st) (o : Op) :
    StInv (applyOp st o)
    ∧ st.menu_id_seq ≤ (applyOp st o).menu_id_seq
    ∧ st.service_id_seq ≤ (applyOp st o).service_id_seq
    ∧ opAssigns st o
      = List.range' st.menu_id_seq ((applyOp st o).menu_id_seq - st.menu_id_seq) := by
  obtain ⟨hm, hs, h1, h2⟩ := h
  cases o with
  | menuAdd f =>
    rcases hres : coerce_price f.price with e | pc
    · have hst : applyOp st (Op.menuAdd f) = st := add_menu_err_eq st f e hres
      rw [hst]
      refine ⟨⟨hm, hs, h1, h2⟩, le_rfl, le_rfl, ?_⟩
      simp [opAssigns, hres, Except.isOk, Except.toBool, List.range']
    · obtain ⟨it, hid, _, heq⟩ := add_menu_ok_eq st f pc hres
      have hst : applyOp st (Op.menuAdd f)
          = { st with menu := st.menu ++ [it], menu_id_seq := st.menu_id_seq + 1 } := by
        show (add_menu st f).2 = _
        rw [heq]
      rw [hst]
      refine ⟨⟨?_, hs, by show 1 ≤ st.menu_id_seq + 1; omega, h2⟩,
        by show st.menu_id_seq ≤ st.menu_id_seq + 1; omega, le_rfl, ?_⟩
      · show idsInv ((st.menu ++ [it]).map MenuItem.id) (st.menu_id_seq + 1)
        rw [List.map_append]
        simp only [List.map_cons, List.map_nil]
        rw [hid]
        exact idsInv_append_new hm h1
      · simp [opAssigns, hres, Except.isOk, Except.toBool, List.range']
  | menuEdit i f =>
    obtain ⟨e1, e2, e3, e4⟩ := edit_menu_map_id st i f
    refine ⟨⟨?_, ?_, ?_, ?_⟩, ?_, ?_, ?_⟩
    · show idsInv ((edit_menu st i f).2.menu.map MenuItem.id) (edit_menu st i f).2.menu_id_seq
      rw [e1, e3]
      exact hm
    · show idsInv ((edit_menu st i f).2.services.map ServiceItem.id)
          (edit_menu st i f).2.service_id_seq
      rw [e2, e4]
      exact hs
    · show 1 ≤ (edit_menu st i f).2.menu_id_seq
      omega
    · show 1 ≤ (edit_menu st i f).2.service_id_seq
      omega
    · show st.menu_id_seq ≤ (edit_menu st i f).2.menu_id_seq
      omega
    · show st.service_id_seq ≤ (edit_menu st i f).2.service_id_seq
      omega
    · simp only [opAssigns]
      show ([] : List Nat)
          = List.range' st.menu_id_seq ((edit_menu st i f).2.menu_id_seq - st.menu_id_seq)
      rw [e3]
      simp [List.range']
  | menuDel i =>
    obtain ⟨⟨e1, e2, e3⟩, hsub⟩ := delete_menu_snd st i
    have hmap := hsub.map MenuItem.id
    refine ⟨⟨?_, ?_, ?_, ?_⟩, ?_, ?_, ?_⟩
    · show idsInv ((delete_menu st i).2.menu.map MenuItem.id) (delete_menu st i).2.menu_id_seq
      rw [e1]
      obtain ⟨hb, hn⟩ := hm
      exact ⟨fun a ha => hb a (hmap.subset ha), hn.sublist hmap⟩
    · show idsInv ((delete_menu st i).2.services.map ServiceItem.id)
          (delete_menu st i).2.service_id_seq
      rw [e2, e3]
      exact hs
    · show 1 ≤ (delete_menu st i).2.menu_id_seq
      omega
    · show 1 ≤ (delete_menu st i).2.service_id_seq
      omega
    · show st.menu_id_seq ≤ (delete_menu st i).2.menu_id_seq
      omega
    · show st.service_id_seq ≤ (delete_menu st i).2.service_id_seq
      omega
    · simp only [opAssigns]
      show ([] : List Nat)
          = List.range' st.menu_id_seq ((delete_menu st i).2.menu_id_seq - st.menu_id_seq)
      rw [e1]
      simp [List.range']
  | svcAdd f =>
    rcases hres : coerce_price f.price with e | pc
    · have hst : applyOp st (Op.svcAdd f) = st := add_service_err_eq st f e hres
      rw [hst]
      exact ⟨⟨hm, hs, h1, h2⟩, le_rfl, le_rfl, by simp [opAssigns, List.range']⟩
    · obtain ⟨it, hid, _, heq⟩ := add_service_ok_eq st f pc hres
      have hst : applyOp st (Op.svcAdd f)
          = { st with
              services := st.services ++ [it]
              service_id_seq := st.service_id_seq + 1 } := by
        show (add_service st f).2 = _
        rw [heq]
      rw [hst]
      refine ⟨⟨hm, ?_, h1, by show 1 ≤ st.service_id_seq + 1; omega⟩, le_rfl,
        by show st.service_id_seq ≤ st.service_id_seq + 1; omega,
        by simp [opAssigns, List.range']⟩
      show idsInv ((st.services ++ [it]).map ServiceItem.id) (st.service_id_seq + 1)
      rw [List.map_append]
      simp only [List.map_cons, List.map_nil]
      rw [hid]
      exact idsInv_append_new hs h2
  | seed =>
    by_cases hemp : st.menu = [] ∧ st.services = []
    · obtain ⟨he1, he2⟩ := hemp
      have hst : applyOp st Op.seed = { st with
          menu := st.menu ++
            [ ⟨st.menu_id_seq, "Classic Burger", okPrice "199", pxYellow,
                "Grilled beef patty, cheddar, lettuce, tomato, house sauce."⟩,
              ⟨st.menu_id_seq + 1, "Chicken Alfredo", okPrice "249.50", pxBlue,
                "Creamy pasta with roasted chicken and parmesan."⟩,
              ⟨st.menu_id_seq + 2, "Veggie Bowl", okPrice "179", pxGreen,
                "Seasonal veggies, quinoa, tahini drizzle."⟩,
              ⟨st.menu_id_seq + 3, "Iced Latte", okPrice "99", pxPink,
                "Arabica espresso over ice and milk."⟩ ],
          services := st.services ++
            [ ⟨st.service_id_seq, "Event Place: Garden Pavilion", okPrice "5000", pxBlue⟩,
              ⟨st.service_id_seq + 1, "Event Place: Rooftop Lounge", okPrice "8000", pxGreen⟩ ],
          menu_id_seq := st.menu_id_seq + 4,
          service_id_seq := st.service_id_seq + 2 } := by
        show seed_data st = _
        unfold seed_data
        rw [if_neg (by simp [he1, he2])]
      rw [hst, he1, he2]
      refine ⟨⟨⟨?_, ?_⟩, ⟨?_, ?_⟩,
        by show 1 ≤ st.menu_id_seq + 4; omega,
        by show 1 ≤ st.service_id_seq + 2; omega⟩,
        by show st.menu_id_seq ≤ st.menu_id_seq + 4; omega,
        by show st.service_id_seq ≤ st.service_id_seq + 2; omega, ?_⟩
      · intro a ha
        simp at ha ⊢
        rcases ha with ha | ha | ha | ha <;> omega
      · simp
      · intro a ha
        simp at ha ⊢
        rcases ha with ha | ha <;> omega
      · simp
      · simp only [opAssigns]
        rw [if_pos (⟨he1, he2⟩ : st.menu = [] ∧ st.services = [])]
        simp [List.range']
    · have hst : applyOp st Op.seed = st := seed_data_skip st (by tauto)
      rw [hst]
      refine ⟨⟨hm, hs, h1, h2⟩, le_rfl, le_rfl, ?_⟩
      simp only [opAssigns]
      rw [if_neg hemp]
      simp [List.range']

theorem range'_glue (a b c : Nat) (hab : a ≤ b) (hbc : b ≤ c) :
    List.range' a (b - a) ++ List.range' b (c - b) = List.range' a (c - a) := by
  have h := List.range'_append a (b - a) (c - b) 1
  rw [one_mul] at h
  rw [show a + (b - a) = b from by omega] at h
  rw [show c - b + (b - a) = c - a from by omega] at h
  exact h

theorem runFrom_spec : ∀ (l : List Op) (st : St), StInv st →
    StInv (runFrom st l)
    ∧ st.menu_id_seq ≤ (runFrom st l).menu_id_seq
    ∧ st.service_id_seq ≤ (runFrom st l).service_id_seq
    ∧ menuAssignedFrom st l
        = List.range' st.menu_id_seq ((runFrom st l).menu_id_seq - st.menu_id_seq) := by
  intro l
  induction l with
  | nil =>
    intro st h
    exact ⟨h, le_rfl, le_rfl, by simp [menuAssignedFrom, runFrom, List.range']⟩
  | cons o rest ih =>
    intro st h
    obtain ⟨h1, h2, h3, h4⟩ := applyOp_step h o
    obtain ⟨g1, g2, g3, g4⟩ := ih (applyOp st o) h1
    refine ⟨g1, h2.trans g2, h3.trans g3, ?_⟩
    show opAssigns st o ++ menuAssignedFrom (applyOp st o) rest
        = List.range' st.menu_id_seq ((runFrom st (o :: rest)).menu_id_seq - st.menu_id_seq)
    rw [h4, g4]
    exact range'_glue _ _ _ h2 g2

/-- C4: over every trace of operations from process start, menu ids are unique
and below the counter; the ids ever assigned are exactly 1, 2, ..., counter - 1
in order (so each successful create assigns one more than the previous highest,
deletions notwithstanding, and an id is never reused); a successful create
appends a record carrying the current counter value, which is not among the ids
ever assigned before; deletion and service creation leave the menu counter
untouched, menu operations leave the service side untouched, and both sequences
start at 1. -/
theorem C4_id_sequences (l : List Op) :
    ((runOps l).menu.map MenuItem.id).Nodup
    ∧ ((runOps l).services.map ServiceItem.id).Nodup
    ∧ (∀ m ∈ (runOps l).menu, 1 ≤ m.id ∧ m.id < (runOps l).menu_id_seq)
    ∧ menuAssignedFrom initSt l = List.range' 1 ((runOps l).menu_id_seq - 1)
    ∧ (∀ (f : MenuForm) (pc : Int), coerce_price f.price = .ok pc →
        ∃ it : MenuItem, it.id = (runOps l).menu_id_seq
          ∧ it.id ∉ menuAssignedFrom initSt l
          ∧ add_menu (runOps l) f = (.redirect 303 "/manage?msg=Menu+added",
              { runOps l with
                menu := (runOps l).menu ++ [it]
                menu_id_seq := (runOps l).menu_id_seq + 1 }))
    ∧ (∀ i, (delete_menu (runOps l) i).2.menu_id_seq = (runOps l).menu_id_seq
          ∧ (delete_menu (runOps l) i).2.services = (runOps l).services
          ∧ (delete_menu (runOps l) i).2.service_id_seq = (runOps l).service_id_seq)
    ∧ (∀ f : ServiceForm, (add_service (runOps l) f).2.menu = (runOps l).menu
          ∧ (add_service (runOps l) f).2.menu_id_seq = (runOps l).menu_id_seq)
    ∧ initSt.menu_id_seq = 1 ∧ initSt.service_id_seq = 1 := by
  obtain ⟨⟨⟨mb, mn⟩, ⟨sb, sn⟩, i1, i2⟩, le1, le2, hass⟩ := runFrom_spec l initSt initSt_inv
  refine ⟨mn, sn, ?_, hass, ?_, ?_, ?_, rfl, rfl⟩
  · intro m hm
    exact mb m.id (List.mem_map_of_mem MenuItem.id hm)
  · intro f pc hok
    obtain ⟨it, hid, _, heq⟩ := add_menu_ok_eq (runOps l) f pc hok
    refine ⟨it, hid, ?_, heq⟩
    rw [hass, hid]
    intro hmem
    rw [List.mem_range'_1] at hmem
    rw [show initSt.menu_id_seq = 1 from rfl,
      show runFrom initSt l = runOps l from rfl] at hmem
    have hseq1 : 1 ≤ (runOps l).menu_id_seq := i1
    omega
  · intro i
    exact (delete_menu_snd (runOps l) i).1
  · intro f
    rcases hres : coerce_price f.price with e | pc
    · rw [add_service_err_eq _ f e hres]
      exact ⟨rfl, rfl⟩
    · obtain ⟨it, _, _, heq⟩ := add_service_ok_eq _ f pc hres
      rw [heq]
      exact ⟨rfl, rfl⟩

theorem C4_id_sequences_witness :
    ∃ it : MenuItem, it.id = (runOps [Op.seed, Op.menuDel 2]).menu_id_seq
      ∧ it.id ∉ menuAssignedFrom initSt [Op.seed, Op.menuDel 2]
      ∧ add_menu (runOps [Op.seed, Op.menuDel 2]) ⟨"Tea", "1", "", none, none⟩
          = (.redirect 303 "/manage?msg=Menu+added",
            { runOps [Op.seed, Op.menuDel 2] with
              menu := (runOps [Op.seed, Op.menuDel 2]).menu ++ [it]
              menu_id_seq := (runOps [Op.seed, Op.menuDel 2]).menu_id_seq + 1 }) :=
  (C4_id_sequences [Op.seed, Op.menuDel 2]).2.2.2.2.1 ⟨"Tea", "1", "", none, none⟩ 100
    (by decide)

/-! ### Positional list lemmas for delete and edit (C5, C6, C10) -/

theorem eraseFirst_append {α : Type} (p : α → Bool) (pre post : List α) (x : α)
    (hpre : ∀ y ∈ pre, p y = false) (hx : p x = true) :
    eraseFirst p (pre ++ x :: post) = some (pre ++ post) := by
  induction pre with
  | nil =>
    simp only [List.nil_append, eraseFirst]
    rw [if_pos hx]
  | cons z zs ih =>
    simp only [List.cons_append, eraseFirst]
    rw [if_neg (by simp [hpre z (by simp)])]
    simp only [List.append_eq]
    rw [ih (fun y hy => hpre y (by simp [hy]))]
    rfl

theorem eraseFirst_none {α : Type} (p : α → Bool) (l : List α)
    (h : ∀ y ∈ l, p y = false) : eraseFirst p l = none := by
  induction l with
  | nil => rfl
  | cons z zs ih =>
    simp only [eraseFirst]
    rw [if_neg (by simp [h z (by simp)]), ih (fun y hy => h y (by simp [hy]))]
    rfl

theorem updateFirst_append {α : Type} (p : α → Bool) (g : α → α) (pre post : List α) (x : α)
    (hpre : ∀ y ∈ pre, p y = false) (hx : p x = true) :
    updateFirst p g (pre ++ x :: post) = pre ++ g x :: post := by
  induction pre with
  | nil =>
    simp only [List.nil_append, updateFirst]
    rw [if_pos hx]
  | cons z zs ih =>
    simp only [List.cons_append, updateFirst]
    rw [if_neg (by simp [hpre z (by simp)])]
    simp only [List.append_eq]
    rw [ih (fun y hy => hpre y (by simp [hy]))]

theorem find?_first {α : Type} (p : α → Bool) (pre post : List α) (x : α)
    (hpre : ∀ y ∈ pre, p y = false) (hx : p x = true) :
    (pre ++ x :: post).find? p = some x := by
  induction pre with
  | nil =>
    simp only [List.nil_append, List.find?]
    rw [hx]
  | cons z zs ih =>
    simp only [List.cons_append, List.find?]
    rw [hpre z (by simp)]
    exact ih (fun y hy => hpre y (by simp [hy]))

/-- C5: deleting an id that occurs at some position (with no earlier record
carrying it) removes exactly that record, leaving every other record and the
order, the services and both counters unchanged; deleting an absent id yields
the 404 response and the whole store unchanged. -/
theorem C5_delete_semantics (st : St) (i : Nat) :
    (∀ (pre post : List MenuItem) (x : MenuItem), st.menu = pre ++ x :: post → x.id = i →
      (∀ y ∈ pre, y.id ≠ i) →
      delete_menu st i = (.redirect 303 "/manage?msg=Menu+deleted",
        { st with menu := pre ++ post }))
    ∧ ((∀ m ∈ st.menu, m.id ≠ i) →
      delete_menu st i = (.notFound "Menu item not found", st)) := by
  constructor
  · intro pre post x hsplit hx hpre
    unfold delete_menu
    rw [hsplit, eraseFirst_append _ _ _ _ (fun y hy => by simp [hpre y hy]) (by simp [hx])]
  · intro hall
    unfold delete_menu
    rw [eraseFirst_none _ _ (fun y hy => by simp [hall y hy])]

theorem C5_delete_semantics_witness :
    delete_menu ⟨[⟨1, "A", 100, "", ""⟩, ⟨2, "B", 200, "", ""⟩, ⟨3, "C", 300, "", ""⟩], [], 4, 1⟩ 2
      = (.redirect 303 "/manage?msg=Menu+deleted",
        ⟨[⟨1, "A", 100, "", ""⟩, ⟨3, "C", 300, "", ""⟩], [], 4, 1⟩)
    ∧ delete_menu ⟨[⟨1, "A", 100, "", ""⟩], [], 2, 1⟩ 9
      = (.notFound "Menu item not found", ⟨[⟨1, "A", 100, "", ""⟩], [], 2, 1⟩) := by
  constructor
  · exact (C5_delete_semantics ⟨[⟨1, "A", 100, "", ""⟩, ⟨2, "B", 200, "", ""⟩,
      ⟨3, "C", 300, "", ""⟩], [], 4, 1⟩ 2).1 [⟨1, "A", 100, "", ""⟩] [⟨3, "C", 300, "", ""⟩]
      ⟨2, "B", 200, "", ""⟩ rfl rfl (by decide)
  · exact (C5_delete_semantics ⟨[⟨1, "A", 100, "", ""⟩], [], 2, 1⟩ 9).2 (by decide)

/-- C10: the edit handler checks existence before validating the price, and
validates the price before mutating: an edit of an absent id returns 404 and
leaves the store unchanged whatever the price field holds (even an invalid
one); an edit of a present id with an invalid price returns the error redirect
to the edit form with the store (targeted record included) entirely unchanged. -/
theorem C10_edit_order (st : St) (i : Nat) (f : MenuForm) :
    ((∀ m ∈ st.menu, m.id ≠ i) →
      edit_menu st i f = (.notFound "Menu item not found", st))
    ∧ (∀ msg, (∃ m ∈ st.menu, m.id = i) →
        coerce_price f.price = .error (.valueError msg) →
        edit_menu st i f
          = (.redirect 303 ("/menu/" ++ natToStr i ++ "/edit?err=" ++ msg), st)) := by
  constructor
  · intro hall
    unfold edit_menu
    rw [show st.menu.find? (fun m => m.id == i) = none from
      List.find?_eq_none.mpr (fun x hx => by simp [hall x hx])]
  · intro msg hex herr
    obtain ⟨m, hm, hmid⟩ := hex
    unfold edit_menu
    rcases hf : st.menu.find? (fun m => m.id == i) with _ | it
    · rw [List.find?_eq_none] at hf
      exact absurd (by simp [hmid] : (fun m => m.id == i) m = true) (by simpa using hf m hm)
    · rw [hf, herr]

theorem C10_edit_order_witness :
    edit_menu ⟨[⟨1, "A", 100, "", ""⟩], [], 2, 1⟩ 9 ⟨"B", "bad", "", none, none⟩
      = (.notFound "Menu item not found", ⟨[⟨1, "A", 100, "", ""⟩], [], 2, 1⟩)
    ∧ edit_menu ⟨[⟨1, "A", 100, "", ""⟩], [], 2, 1⟩ 1 ⟨"B", "bad", "", none, none⟩
      = (.redirect 303 "/menu/1/edit?err=could not convert string to float: 'bad'",
        ⟨[⟨1, "A", 100, "", ""⟩], [], 2, 1⟩) := by
  constructor
  · exact (C10_edit_order ⟨[⟨1, "A", 100, "", ""⟩], [], 2, 1⟩ 9
      ⟨"B", "bad", "", none, none⟩).1 (by decide)
  · exact (C10_edit_order ⟨[⟨1, "A", 100, "", ""⟩], [], 2, 1⟩ 1
      ⟨"B", "bad", "", none, none⟩).2 "could not convert string to float: 'bad'"
      ⟨⟨1, "A", 100, "", ""⟩, by decide, rfl⟩ (by decide)

/-- C7: seeding fires exactly when both collections are empty: a store with any
record in either collection is returned unchanged, and at process start (both
collections empty, counters at 1) exactly four menu items with ids 1-4 and two
services with ids 1-2 are inserted, with these names and minor-unit prices. -/
theorem C7_seeding :
    (∀ st : St, st.menu ≠ [] ∨ st.services ≠ [] → seed_data st = st)
    ∧ seed_data initSt =
      ⟨[ ⟨1, "Classic Burger", 19900, pxYellow,
          "Grilled beef patty, cheddar, lettuce, tomato, house sauce."⟩,
        ⟨2, "Chicken Alfredo", 24950, pxBlue,
          "Creamy pasta with roasted chicken and parmesan."⟩,
        ⟨3, "Veggie Bowl", 17900, pxGreen,
          "Seasonal veggies, quinoa, tahini drizzle."⟩,
        ⟨4, "Iced Latte", 9900, pxPink,
          "Arabica espresso over ice and milk."⟩ ],
      [ ⟨1, "Event Place: Garden Pavilion", 500000, pxBlue⟩,
        ⟨2, "Event Place: Rooftop Lounge", 800000, pxGreen⟩ ], 5, 3⟩ := by
  refine ⟨seed_data_skip, ?_⟩
  decide

theorem C7_seeding_witness :
    seed_data ⟨[⟨1, "X", 100, "", ""⟩], [], 2, 1⟩ = ⟨[⟨1, "X", 100, "", ""⟩], [], 2, 1⟩ :=
  C7_seeding.1 ⟨[⟨1, "X", 100, "", ""⟩], [], 2, 1⟩ (Or.inl (by simp))

/-- C6: a successful edit (id present, price valid) replaces exactly the
targeted record in place: the id is kept, name, price and description are
always overwritten from the form, and the image keeps its prior value when
neither a usable upload (one that encodes to a data URL) nor a non-empty URL is
posted, takes the encoded data URL whenever the upload yields one (so the
upload wins over any URL), and otherwise takes a posted non-empty URL. -/
theorem C6_edit_semantics (st : St) (i : Nat) (f : MenuForm) (pc : Int)
    (pre post : List MenuItem) (x : MenuItem)
    (hsplit : st.menu = pre ++ x :: post) (hx : x.id = i)
    (hpre : ∀ y ∈ pre, y.id ≠ i)
    (hok : coerce_price f.price = .ok pc) :
    ∃ x' : MenuItem,
      edit_menu st i f = (.redirect 303 "/manage?msg=Menu+updated",
        { st with menu := pre ++ x' :: post })
      ∧ x'.id = x.id
      ∧ x'.name = pyStripStr f.name
      ∧ x'.price_cents = pc
      ∧ x'.description = pyStripStr f.description
      ∧ ((f.image_file = none ∨ encode_upload_to_data_url f.image_file = none) →
          (f.image_url = none ∨ f.image_url = some "") → x'.image = x.image)
      ∧ (∀ d, f.image_file.isSome →
          encode_upload_to_data_url f.image_file = some d → d ≠ "" → x'.image = d)
      ∧ ((f.image_file = none ∨ encode_upload_to_data_url f.image_file = none) →
          ∀ u, f.image_url = some u → u ≠ "" → x'.image = u) := by
  have hfind := find?_first (fun m => m.id == i) pre post x
    (fun y hy => by simp [hpre y hy]) (by simp [hx])
  refine ⟨applyEditTo f pc x, ?_, rfl, rfl, rfl, rfl, ?_, ?_, ?_⟩
  · unfold edit_menu
    rw [hsplit, hfind, hok]
    show (HResp.redirect 303 "/manage?msg=Menu+updated",
        ({ st with
          menu := updateFirst (fun m => m.id == i) (applyEditTo f pc) (pre ++ x :: post) } : St))
      = (HResp.redirect 303 "/manage?msg=Menu+updated",
        { st with menu := pre ++ applyEditTo f pc x :: post })
    rw [updateFirst_append _ _ _ _ _ (fun y hy => by simp [hpre y hy]) (by simp [hx])]
  · intro hup hurl
    show (applyEditTo f pc x).image = x.image
    have hdu : (if f.image_file.isSome then encode_upload_to_data_url f.image_file else none)
        = none := by
      rcases hup with h | h
      · rw [h]
        rfl
      · split
        · exact h
        · rfl
    simp only [applyEditTo, hdu]
    rcases hurl with h | h <;> rw [h] <;> rfl
  · intro d hsome henc hne
    show (applyEditTo f pc x).image = d
    have hdu : (if f.image_file.isSome then encode_upload_to_data_url f.image_file else none)
        = some d := by
      rw [if_pos hsome, henc]
    simp only [applyEditTo, hdu, truthy]
    rw [if_neg hne]
  · intro hup u hu hune
    show (applyEditTo f pc x).image = u
    have hdu : (if f.image_file.isSome then encode_upload_to_data_url f.image_file else none)
        = none := by
      rcases hup with h | h
      · rw [h]
        rfl
      · split
        · exact h
        · rfl
    simp only [applyEditTo, hdu, hu, truthy]
    rw [if_neg hune]

theorem C6_edit_semantics_witness :
    ∃ x' : MenuItem,
      edit_menu ⟨[⟨1, "A", 100, "old", ""⟩, ⟨2, "B", 200, "oldimg", "d"⟩], [], 3, 1⟩ 2
          ⟨" New ", "25", " desc ", some ⟨some "a.png", none, [137]⟩, some "http://u"⟩
        = (.redirect 303 "/manage?msg=Menu+updated",
          { (⟨[⟨1, "A", 100, "old", ""⟩, ⟨2, "B", 200, "oldimg", "d"⟩], [], 3, 1⟩ : St) with
            menu := [⟨1, "A", 100, "old", ""⟩] ++ x' :: [] })
      ∧ x'.id = (⟨2, "B", 200, "oldimg", "d"⟩ : MenuItem).id
      ∧ x'.name = pyStripStr " New "
      ∧ x'.price_cents = 2500
      ∧ x'.description = pyStripStr " desc "
      ∧ (((some (⟨some "a.png", none, [137]⟩ : UploadFile) = none)
            ∨ encode_upload_to_data_url (some ⟨some "a.png", none, [137]⟩) = none) →
          ((some "http://u" : Option String) = none ∨ (some "http://u" : Option String) = some "") →
          x'.image = "oldimg")
      ∧ (∀ d, (some (⟨some "a.png", none, [137]⟩ : UploadFile)).isSome →
          encode_upload_to_data_url (some ⟨some "a.png", none, [137]⟩) = some d → d ≠ "" →
          x'.image = d)
      ∧ (((some (⟨some "a.png", none, [137]⟩ : UploadFile) = none)
            ∨ encode_upload_to_data_url (some ⟨some "a.png", none, [137]⟩) = none) →
          ∀ u, (some "http://u" : Option String) = some u → u ≠ "" → x'.image = u) :=
  C6_edit_semantics ⟨[⟨1, "A", 100, "old", ""⟩, ⟨2, "B", 200, "oldimg", "d"⟩], [], 3, 1⟩ 2
    ⟨" New ", "25", " desc ", some ⟨some "a.png", none, [137]⟩, some "http://u"⟩ 2500
    [⟨1, "A", 100, "old", ""⟩] [] ⟨2, "B", 200, "oldimg", "d"⟩ rfl rfl (by decide) (by decide)

theorem dataUrl_fold (s : String) :
    "data:" ++ "application/octet-stream" ++ ";base64," ++ s
      = "data:application/octet-stream;base64," ++ s := by
  rw [show ("data:" ++ "application/octet-stream" ++ ";base64," : String)
      = "data:application/octet-stream;base64," from by decide]

/-- C8: with a usable upload (present, non-empty filename, non-empty bytes) the
encoder returns `data:<mime>;base64,<base64 of the bytes>` where the MIME type
is the declared content type when truthy, else the type guessed from the
filename extension, else `application/octet-stream`; without a usable upload it
returns `None`, and the menu-creation handler then stores the fallback URL when
one was posted and the empty string otherwise. -/
theorem C8_encode_image (fl : UploadFile) (fname : String) :
    (fl.filename = some fname → fname ≠ "" → fl.content ≠ [] →
      ∀ c, fl.content_type = some c → c ≠ "" →
        encode_upload_to_data_url (some fl)
          = some ("data:" ++ c ++ ";base64," ++ String.mk (base64Chars fl.content)))
    ∧ (fl.filename = some fname → fname ≠ "" → fl.content ≠ [] →
        (fl.content_type = none ∨ fl.content_type = some "") →
        ∀ g, guess_type fname = some g →
          encode_upload_to_data_url (some fl)
            = some ("data:" ++ g ++ ";base64," ++ String.mk (base64Chars fl.content)))
    ∧ (fl.filename = some fname → fname ≠ "" → fl.content ≠ [] →
        (fl.content_type = none ∨ fl.content_type = some "") →
        guess_type fname = none →
        encode_upload_to_data_url (some fl)
          = some ("data:application/octet-stream;base64,"
              ++ String.mk (base64Chars fl.content)))
    ∧ encode_upload_to_data_url none = none
    ∧ ((fl.filename = none ∨ fl.filename = some "") →
        encode_upload_to_data_url (some fl) = none)
    ∧ (fl.content = [] → encode_upload_to_data_url (some fl) = none)
    ∧ (∀ (st : St) (f : MenuForm) (pc : Int), coerce_price f.price = .ok pc →
        (f.image_file = none ∨ encode_upload_to_data_url f.image_file = none) →
        ∃ it : MenuItem, add_menu st f = (.redirect 303 "/manage?msg=Menu+added",
            { st with menu := st.menu ++ [it], menu_id_seq := st.menu_id_seq + 1 })
          ∧ it.image = f.image_url.getD "") := by
  refine ⟨?_, ?_, ?_, rfl, ?_, ?_, ?_⟩
  · intro h1 h2 h3 c hc hcne
    simp [encode_upload_to_data_url, truthy, h1, h2, h3, hc, hcne]
  · intro h1 h2 h3 hct g hg
    rcases hct with hct | hct <;>
      simp [encode_upload_to_data_url, truthy, h1, h2, h3, hct, hg]
  · intro h1 h2 h3 hct hg
    rcases hct with hct | hct
    · simp [encode_upload_to_data_url, truthy, h1, h2, h3, hct, hg]
      exact dataUrl_fold _
    · simp [encode_upload_to_data_url, truthy, h1, h2, h3, hct, hg]
      exact dataUrl_fold _
  · intro h
    rcases h with h | h <;> simp [encode_upload_to_data_url, truthy, h]
  · intro h
    simp only [encode_upload_to_data_url]
    split
    · rfl
    · simp [h]
  · intro st f pc hok hni
    unfold add_menu
    rw [hok]
    have hdu : (if f.image_file.isSome then encode_upload_to_data_url f.image_file else none)
        = none := by
      rcases hni with h | h
      · rw [h]
        rfl
      · split
        · exact h
        · rfl
    refine ⟨⟨st.menu_id_seq, pyStripStr f.name, pc,
        (match truthy (if f.image_file.isSome then encode_upload_to_data_url f.image_file
          else none) with
        | some d => d
        | none => f.image_url.getD ""), pyStripStr f.description⟩, rfl, ?_⟩
    show (match truthy (if f.image_file.isSome then encode_upload_to_data_url f.image_file
        else none) with
      | some d => d
      | none => f.image_url.getD "") = f.image_url.getD ""
    rw [hdu]
    rfl

theorem C8_encode_image_witness :
    encode_upload_to_data_url (some ⟨some "a.png", none, [137]⟩)
        = some "data:image/png;base64,iQ=="
    ∧ encode_upload_to_data_url (some ⟨some "a.zzz", some "image/webp", [137]⟩)
        = some "data:image/webp;base64,iQ=="
    ∧ encode_upload_to_data_url (some ⟨some "a.zzz", none, [137]⟩)
        = some "data:application/octet-stream;base64,iQ=="
    ∧ encode_upload_to_data_url (some ⟨some "", none, [137]⟩) = none := by
  refine ⟨?_, ?_, ?_, ?_⟩
  · have h := ((C8_encode_image ⟨some "a.png", none, [137]⟩ "a.png").2.1 rfl (by decide)
      (by decide) (Or.inl rfl) "image/png" (by decide))
    rw [h]
    rfl
  · have h := ((C8_encode_image ⟨some "a.zzz", some "image/webp", [137]⟩ "a.zzz").1 rfl
      (by decide) (by decide) "image/webp" rfl (by decide))
    rw [h]
    rfl
  · have h := ((C8_encode_image ⟨some "a.zzz", none, [137]⟩ "a.zzz").2.2.1 rfl (by decide)
      (by decide) (Or.inl rfl) (by decide))
    rw [h]
    decide
  · exact (C8_encode_image ⟨some "", none, [137]⟩ "").2.2.2.2.1 (Or.inr rfl)

/-! ### Claim C9: the currency formatter -/

/-- C9, counterexample: the claim "the two fractional digits are derived exactly
from n, for any magnitude of n" fails at n = 10^17 + 1: `cents / 100` is binary64
float division, which rounds 1000000000000000.01 to exactly 10^15, so the
formatted string ends in ".00" while the exact minor units end in ".01". -/
theorem C9_price_fmt_cex :
    price_fmt (10 ^ 17 + 1) = .ok "₱1,000,000,000,000,000.00"
    ∧ exactPriceStr (10 ^ 17 + 1) = "₱1,000,000,000,000,000.01"
    ∧ price_fmt (10 ^ 17 + 1) ≠ .ok (exactPriceStr (10 ^ 17 + 1)) := by
  refine ⟨by decide, by decide, by decide⟩

/-- C9 (amended): for every minor-unit integer n with 0 ≤ n ≤ 10^15 the rendered
currency string (fixed symbol, thousands separators, exactly two fractional
digits) is derived from n with no loss: the float-division error stays below
half a unit of the two-decimal grid in this range, so the correctly rounded
two-decimal rendering of `n / 100` reproduces n exactly. Beyond about 2^53
minor units the division loses the final digits, as the counterexample shows. -/
theorem C9_price_fmt_exact (n : Int) (h0 : 0 ≤ n) (h1 : n ≤ 10 ^ 15) :
    price_fmt n = .ok (exactPriceStr n) := by
  rcases eq_or_lt_of_le h0 with hz | hpos
  · rw [← hz]
    decide
  · have hd : (0:Int) < (⟨n, 100⟩ : PRat).den := by norm_num
    have hn : (0:Int) < (⟨n, 100⟩ : PRat).num := hpos
    have hval : (⟨n, 100⟩ : PRat).val = (n : ℚ) / 100 := by
      rw [PRat.val]
      norm_num
    have hnq : (n : ℚ) ≤ 10 ^ 15 := by exact_mod_cast h1
    have hq0 : (0:ℚ) ≤ (n:ℚ) := by exact_mod_cast h0
    have hb : (⟨n, 100⟩ : PRat).val ≤ qpow2 1023 := by
      rw [hval, qpow2]
      have h2 : (n : ℚ) / 100 ≤ (n : ℚ) := div_le_self hq0 (by norm_num)
      have h3 : (10 ^ 15 : ℚ) ≤ (2 : ℚ) ^ (1023 : Int) := by norm_num
      linarith
    obtain ⟨r, hreq, hrd, hrn, hrb⟩ := roundB64_pos_close hn hd hb
    have ec : qpow2 (-53 : Int) = 1 / 2 ^ 53 := by rw [qpow2]; norm_num
    have ed : qpow2 (-1075 : Int) = 1 / 2 ^ 1075 := by rw [qpow2]; norm_num
    rw [hval, ec, ed] at hrb
    have hrne : PRat.rne ⟨r.num * 100, r.den⟩ = n := by
      apply PRat.rne_eq_of_close (by exact hrd)
      rw [PRat.val_mul100]
      have h6 : (n:ℚ) / 100 * (1 / 2 ^ 53) ≤ (10 ^ 13 : ℚ) * (1 / 2 ^ 53) := by
        have hq13 : (n:ℚ) / 100 ≤ (10 ^ 13 : ℚ) := by linarith
        apply mul_le_mul_of_nonneg_right hq13
        norm_num
      have h7 : (10 ^ 13 : ℚ) * (1 / 2 ^ 53) + 1 / 2 ^ 1075 < 1 / 200 := by norm_num
      have h8 : |100 * r.val - (n:ℚ)| = 100 * |r.val - (n:ℚ) / 100| := by
        rw [show 100 * r.val - (n:ℚ) = 100 * (r.val - (n:ℚ) / 100) from by ring, abs_mul]
        norm_num
      rw [h8]
      have h9 : |r.val - (n:ℚ) / 100| < 1 / 200 := lt_of_le_of_lt hrb (by linarith)
      linarith
    unfold price_fmt
    rw [hreq]
    show Except.ok ("₱" ++ fmtComma2 r) = .ok (exactPriceStr n)
    unfold fmtComma2 exactPriceStr
    rw [hrne, decide_eq_false (not_lt.mpr hrn), decide_eq_false (not_lt.mpr h0)]

/-- Witness for the amended C9 theorem at n = 1250: the formatter prints "₱12.50". -/
theorem C9_price_fmt_exact_witness :
    (0:Int) ≤ 1250 ∧ (1250:Int) ≤ 10 ^ 15 ∧ price_fmt 1250 = .ok "₱12.50" :=
  ⟨by decide, by decide,
    (C9_price_fmt_exact 1250 (by decide) (by decide)).trans (by decide)⟩
